import Mathlib

/-!
Shallow embedding of the Torch `.t7` deserializer in `src/utils/torchfile.py`
(class `T7Reader` and the reader registry built by `add_tensor_reader`,
`add_storage_reader` and `add_trivial_class_reader`).

The byte stream is a `List Nat` (each entry one byte); the reader state
carries the stream, a cursor, and the reference table `objects`.  Machine
integers are decoded as two's-complement over explicit byte widths, and the
8-byte Number payload is decoded as an IEEE-754 binary64 value into an exact
representation (`FloatVal`).  Fallible operations return `Except PyErr`.
-/

/-- Error outcomes of the Python code: `struct.error` on a short fixed-width
read, `UnicodeDecodeError` from `bytes.decode()`, `EOFError` from
`array.fromfile`, `TypeError` for unhashable dict keys, `KeyError` from dict
indexing, `IndexError` from slicing a 0-d array, `AttributeError` from
`.dtype` on a non-array, `ValueError` from `int()` on a non-numeric string or
a negative `array.fromfile` count, and the two `T7ReaderException` messages of
`read_obj`.  `outOfFuel` is an artifact of the embedding: the recursion of
`read_obj` is bounded by an explicit fuel parameter. -/
inductive PyErr where
  | structError
  | unicodeDecodeError
  | eofError
  | typeErrorUnhashable
  | keyError
  | indexError
  | attributeError
  | valueError
  | unknownObjectError
  | unsupportedClassError
  | outOfFuel
deriving DecidableEq, Repr

/-- Value of a little-endian byte list (each byte taken mod 256). -/
def bytesToNat : List Nat → Nat
  | [] => 0
  | b :: rest => b % 256 + 256 * bytesToNat rest

/-- The `w` little-endian bytes of `n` (mod `256 ^ w`). -/
def natBytes : Nat → Nat → List Nat
  | 0, _ => []
  | w + 1, n => n % 256 :: natBytes w (n / 256)

/-- Two's-complement reading of a `w`-byte unsigned value. -/
def toSigned (w : Nat) (n : Nat) : Int :=
  if n % 2 ^ (8 * w) < 2 ^ (8 * w - 1) then ((n % 2 ^ (8 * w) : Nat) : Int)
  else ((n % 2 ^ (8 * w) : Nat) : Int) - 2 ^ (8 * w)

/-- Decode `w` little-endian bytes as a signed two's-complement integer. -/
def decodeSigned (w : Nat) (bs : List Nat) : Int := toSigned w (bytesToNat bs)

/-- Encode an integer as `w` little-endian two's-complement bytes. -/
def encSigned (w : Nat) (z : Int) : List Nat := natBytes w (z % 2 ^ (8 * w)).toNat

/-- Encode a signed 32-bit int (struct format character i). -/
def encInt (z : Int) : List Nat := encSigned 4 z

/-- Exact value of an IEEE-754 binary64 datum: a finite value, a signed
infinity, or NaN.  Every finite binary64 value is an integer multiple of
2 ^ (-1074) (the smallest subnormal), so a finite value is stored exactly as
that integer multiple: `finite u` denotes the real value `u / 2 ^ 1074`.
This keeps all float arithmetic in exact integers. -/
inductive FloatVal where
  | finite (units : Int)
  | inf (neg : Bool)
  | nan
deriving DecidableEq, Repr

/-- The scale of `FloatVal.finite`: `finite u` is the value `u / float_scale`. -/
def floatScale : Nat := 2 ^ 1074

/-- Decode 8 little-endian bytes as an IEEE-754 binary64 value (struct format
character d on a little-endian host).  A normal number with biased exponent
`e` and mantissa `m` is `(2^52 + m) * 2^(e - 1075)`, which is
`(2^52 + m) * 2^(e-1)` units of `2^(-1074)`; a subnormal is `m` units. -/
def decodeDouble (bs : List Nat) : FloatVal :=
  let n : Nat := bytesToNat (bs.take 8)
  let sign : Nat := n / 2 ^ 63
  let expo : Nat := n / 2 ^ 52 % 2 ^ 11
  let mant : Nat := n % 2 ^ 52
  if expo = 2047 then
    if mant = 0 then .inf (sign = 1) else .nan
  else
    let mag : Nat :=
      if expo = 0 then mant
      else (2 ^ 52 + mant) * 2 ^ (expo - 1)
    .finite (if sign = 1 then -(mag : Int) else (mag : Int))

/-- Python `float.is_integer`: finite with no fractional part. -/
def FloatVal.isIntegral : FloatVal → Bool
  | .finite u => u % (floatScale : Int) = 0
  | _ => false

/-- Python `int()` applied to a float: truncation toward zero. -/
def FloatVal.toPyInt : FloatVal → Int
  | .finite u => if u < 0 then -((-u) / (floatScale : Int)) else u / (floatScale : Int)
  | _ => 0

/-- Strict UTF-8 decoding of a byte list to unicode code points, as performed
by Python `bytes.decode()`: rejects lone continuation bytes, overlong forms,
surrogates, code points above U+10FFFF and truncated sequences. -/
def utf8DecodeAux : List Nat → Option (List Nat)
  | [] => some []
  | b :: rest =>
    if b < 0x80 then (utf8DecodeAux rest).map (b :: ·)
    else if b < 0xC2 then none
    else if b < 0xE0 then
      match rest with
      | c :: rest2 =>
        if 0x80 ≤ c ∧ c < 0xC0 then
          (utf8DecodeAux rest2).map (((b - 0xC0) * 0x40 + (c - 0x80)) :: ·)
        else none
      | _ => none
    else if b < 0xF0 then
      match rest with
      | c :: d :: rest2 =>
        let lowOk : Prop := if b = 0xE0 then 0xA0 ≤ c ∧ c < 0xC0
          else if b = 0xED then 0x80 ≤ c ∧ c < 0xA0
          else 0x80 ≤ c ∧ c < 0xC0
        if lowOk ∧ 0x80 ≤ d ∧ d < 0xC0 then
          (utf8DecodeAux rest2).map
            (((b - 0xE0) * 0x1000 + (c - 0x80) * 0x40 + (d - 0x80)) :: ·)
        else none
      | _ => none
    else if b < 0xF5 then
      match rest with
      | c :: d :: e :: rest2 =>
        let lowOk : Prop := if b = 0xF0 then 0x90 ≤ c ∧ c < 0xC0
          else if b = 0xF4 then 0x80 ≤ c ∧ c < 0x90
          else 0x80 ≤ c ∧ c < 0xC0
        if lowOk ∧ 0x80 ≤ d ∧ d < 0xC0 ∧ 0x80 ≤ e ∧ e < 0xC0 then
          (utf8DecodeAux rest2).map
            (((b - 0xF0) * 0x40000 + (c - 0x80) * 0x1000 +
              (d - 0x80) * 0x40 + (e - 0x80)) :: ·)
        else none
      | _ => none
    else none

/-- Python `bytes.decode()`: strict UTF-8 decoding to a string. -/
def utf8Decode (bs : List Nat) : Option String :=
  (utf8DecodeAux bs).map (fun cps => String.mk (cps.map Char.ofNat))


/-- Element type of a numpy buffer, as mapped from the torch class names by
`add_tensor_reader` / `add_storage_reader` (Cuda variants map to the same
host types). -/
inductive Dtype where
  | uint8
  | int8
  | int16
  | int32
  | int64
  | float32
  | float64
deriving DecidableEq, Repr

/-- `numpy.dtype.itemsize` of the element type. -/
def Dtype.itemsize : Dtype → Nat
  | .uint8 => 1
  | .int8 => 1
  | .int16 => 2
  | .int32 => 4
  | .int64 => 8
  | .float32 => 4
  | .float64 => 8

/-- A numpy array as the engine builds them: an element type, a backing byte
buffer, the byte offset of the data pointer into that buffer, and the shape
and byte strides.  A contiguous storage of `n` elements is
`⟨dt, bytes, 0, [n], [itemsize]⟩`; `as_strided` only changes shape and
strides. -/
structure NpArray where
  dtype : Dtype
  base : List Nat
  start : Int
  shape : List Int
  strides : List Int
deriving DecidableEq, Repr

/-- `np.empty((0), dtype)`: a fresh zero-length one-dimensional buffer. -/
def npEmpty (dt : Dtype) : NpArray := ⟨dt, [], 0, [0], [(dt.itemsize : Int)]⟩

/-- One-dimensional slice `a[o:]` with Python clamping of the start index;
slicing needs at least one axis. -/
def npSliceFrom (a : NpArray) (o : Int) : Except PyErr NpArray :=
  match a.shape, a.strides with
  | d :: ds, t :: _ =>
    let i : Int := if o < 0 then max (d + o) 0 else min o d
    .ok ⟨a.dtype, a.base, a.start + i * t, (d - i) :: ds, a.strides⟩
  | _, _ => .error .indexError

/-- `np.lib.stride_tricks.as_strided(a, shape, strides)`: same data pointer
and dtype, new shape and strides. -/
def npAsStrided (a : NpArray) (shape strides : List Int) : NpArray :=
  ⟨a.dtype, a.base, a.start, shape, strides⟩

/-- A deserialized value.  `VTable` and `VObj` carry the stream-assigned
object index of the instance: the Python objects compare by identity
(`hashable_uniq_dict.__eq__`, default `TorchObject` equality), and during one
deserialization the registered instance of each object index is unique, so the
index is a faithful identity token.  `VFunc` is the `LuaFunction` namedtuple
(structural equality); `VList` is a plain Python list; `VStr` a decoded `str`;
`VInt` a Python `int` produced by the int heuristic. -/
inductive Value where
  | VNil
  | VInt (n : Int)
  | VFloat (x : FloatVal)
  | VBool (b : Bool)
  | VStr (s : String)
  | VTable (id : Int) (entries : List (Value × Value))
  | VList (xs : List Value)
  | VObj (id : Int) (name : String) (payload : Value)
  | VFunc (size : Int) (dumped : List Nat) (upvalues : Value)
  | VArr (a : NpArray)
deriving Repr

/-- Numeric view of a value for Python `==`: ints, bools and floats compare
by numeric value (`True == 1`, `1 == 1.0`); ints are scaled into
`2 ^ (-1074)` units to compare exactly with floats. -/
def numV : Value → Option FloatVal
  | .VInt n => some (.finite (n * (floatScale : Int)))
  | .VBool b => some (.finite (if b then (floatScale : Int) else 0))
  | .VFloat x => some x
  | _ => none

/-- Equality of float values under Python `==`: NaN is not equal to anything
(fresh instances are never identical). -/
def feq : FloatVal → FloatVal → Bool
  | .finite p, .finite q => p = q
  | .inf s, .inf t => s = t
  | _, _ => false

mutual
/-- Python `==` as used on dict keys by the reader: numbers cross-compare by
value, strings by content, tables and `TorchObject`s by instance identity
(their object index), `LuaFunction` namedtuples structurally, lists
elementwise.  Arrays are unreachable as dict keys (unhashable). -/
def pyEq : Value → Value → Bool
  | .VNil, .VNil => true
  | .VStr s, .VStr t => s = t
  | .VTable i _, .VTable j _ => i = j
  | .VObj i _ _, .VObj j _ _ => i = j
  | .VFunc n d u, .VFunc n' d' u' => n = n' && d = d' && pyEq u u'
  | .VList xs, .VList ys => pyEqList xs ys
  | x, y =>
    match numV x, numV y with
    | some p, some q => feq p q
    | _, _ => false

/-- Elementwise Python `==` on lists. -/
def pyEqList : List Value → List Value → Bool
  | [], [] => true
  | x :: xs, y :: ys => pyEq x y && pyEqList xs ys
  | _, _ => false
end

/-- Keys that raise `TypeError: unhashable` on dict insertion: lists and numpy
arrays, and `LuaFunction` tuples whose upvalues are unhashable. -/
def keyUnhashable : Value → Bool
  | .VList _ => true
  | .VArr _ => true
  | .VFunc _ _ u => keyUnhashable u
  | _ => false

/-- `isinstance(k, int)` — Python bools are ints. -/
def pyIsInt : Value → Bool
  | .VInt _ => true
  | .VBool _ => true
  | _ => false

/-- The int value of a Python int (with `True = 1`, `False = 0`). -/
def pyIntVal : Value → Int
  | .VInt n => n
  | .VBool b => if b then 1 else 0
  | _ => 0

/-- Dict update `d[k] = v` on an association list: replace the value of the
first key equal to `k` (keeping the stored key object, as CPython does), else
append. -/
def insertEntry : List (Value × Value) → Value → Value → List (Value × Value)
  | [], k, v => [(k, v)]
  | (k₀, v₀) :: rest, k, v =>
    if pyEq k₀ k then (k₀, v) :: rest else (k₀, v₀) :: insertEntry rest k v

/-- `obj[k] = v` on a `hashable_uniq_dict`, with the hashability check. -/
def dictInsert (es : List (Value × Value)) (k v : Value) :
    Except PyErr (List (Value × Value)) :=
  if keyUnhashable k then .error .typeErrorUnhashable
  else .ok (insertEntry es k v)

/-- `obj[k]` for an int key (used by the list-conversion loop); raises
`KeyError` when no stored key equals `k`. -/
def dictGetInt (es : List (Value × Value)) (k : Int) : Except PyErr Value :=
  match es.find? (fun e => pyEq e.1 (.VInt k)) with
  | some e => .ok e.2
  | none => .error .keyError

/-- Constructor options of `T7Reader.__init__`, plus `long_width`, which
models `struct.calcsize('l')` / `array('l').itemsize`: the byte width of the
platform's native C long (8 on LP64 Unix platforms, 4 on 32-bit and Windows
platforms), used by `read_long` and `read_long_array` when `force_8bytes_long`
is off. -/
structure Config where
  use_list_heuristic : Bool := true
  use_int_heuristic : Bool := true
  force_deserialize_classes : Bool := true
  force_8bytes_long : Bool := false
  long_width : Nat := 8
deriving DecidableEq, Repr

/-- Reader state: the byte stream with the file cursor, and the reference
table `self.objects` mapping object index to the already-read value. -/
structure RState where
  data : List Nat
  pos : Nat
  objects : List (Int × Value)

/-- The reader monad: explicit state passing with Python-exception results. -/
def M (α : Type) : Type := RState → Except PyErr (α × RState)

def M.pure (a : α) : M α := fun s => .ok (a, s)

def M.bind (x : M α) (f : α → M β) : M β := fun s =>
  match x s with
  | .ok (a, s') => f a s'
  | .error e => .error e

instance : Monad M where
  pure := M.pure
  bind := M.bind

/-- Raise a Python exception. -/
def M.throw (e : PyErr) : M α := fun _ => .error e

/-- Run a pure `Except` computation (a Python expression that may raise). -/
def M.lift (x : Except PyErr α) : M α := fun s =>
  match x with
  | .ok a => .ok (a, s)
  | .error e => .error e

/-- Read the current state. -/
def M.get : M RState := fun s => .ok (s, s)

/-- Dict update on the reference table (insert or overwrite). -/
def objUpdate (os : List (Int × Value)) (i : Int) (v : Value) : List (Int × Value) :=
  if os.any (fun e => e.1 = i)
  then os.map (fun e => if e.1 = i then (i, v) else e)
  else os ++ [(i, v)]

/-- `self.objects[index] = obj`. -/
def registerObj (i : Int) (v : Value) : M Unit := fun s =>
  .ok ((), { s with objects := objUpdate s.objects i v })

/-- `index in self.objects` / `self.objects[index]` lookup. -/
def lookupObj (os : List (Int × Value)) (i : Int) : Option Value :=
  (os.find? (fun e => e.1 = i)).map (·.2)

/-- Python `self.f.read(n)` on a regular file: consume `min n remaining`
bytes (all remaining bytes when `n` is negative), never raising. -/
def fread (n : Int) : M (List Nat) := fun s =>
  let avail : Nat := s.data.length - s.pos
  let take : Nat := if n < 0 then avail else min n.toNat avail
  .ok ((s.data.drop s.pos).take take, { s with pos := s.pos + take })

/-- `T7Reader._read`: `struct.unpack(fmt, self.f.read(sz))` — returns the `w`
raw bytes of the primitive, raising `struct.error` when fewer than `w` bytes
remain. -/
def t7read (w : Nat) : M (List Nat) := fun s =>
  if s.pos + w ≤ s.data.length then
    .ok ((s.data.drop s.pos).take w, { s with pos := s.pos + w })
  else .error .structError

/-- `T7Reader.read_int`: 4-byte signed int (struct format character i). -/
def read_int : M Int := do
  let bs ← t7read 4
  pure (decodeSigned 4 bs)

/-- `T7Reader.read_long`: 8-byte q-format when `force_8bytes_long`, else the
native l-format whose width is the platform's C long width. -/
def read_long (cfg : Config) : M Int :=
  if cfg.force_8bytes_long then do
    let bs ← t7read 8
    pure (decodeSigned 8 bs)
  else do
    let bs ← t7read cfg.long_width
    pure (decodeSigned cfg.long_width bs)

/-- Split a byte list into `k` consecutive `w`-byte signed integers. -/
def decodeChunks (w : Nat) : Nat → List Nat → List Int
  | 0, _ => []
  | k + 1, bs => decodeSigned w (bs.take w) :: decodeChunks w k (bs.drop w)

/-- `T7Reader.read_long_array(n)`: `n` successive `read_long`s when
`force_8bytes_long`, else `array('l').fromfile(f, n)` — one native-width bulk
read that raises `EOFError` when fewer than `n * long_width` bytes remain. -/
def read_long_array (cfg : Config) (n : Int) : M (List Int) :=
  if cfg.force_8bytes_long then
    let rec loop : Nat → List Int → M (List Int)
      | 0, acc => pure acc.reverse
      | m + 1, acc => do
          let x ← read_long cfg
          loop m (x :: acc)
    loop n.toNat []
  else if n < 0 then M.throw .valueError
  else fun s =>
    if s.pos + n.toNat * cfg.long_width ≤ s.data.length then
      .ok (decodeChunks cfg.long_width n.toNat (s.data.drop s.pos),
        { s with pos := s.pos + n.toNat * cfg.long_width })
    else .error .eofError

/-- `T7Reader.read_boolean`: `read_int() == 1`. -/
def read_boolean : M Bool := do
  let i ← read_int
  pure (i = 1)

/-- `T7Reader.read_double`: 8-byte IEEE-754 binary64. -/
def read_double : M FloatVal := do
  let bs ← t7read 8
  pure (decodeDouble bs)

/-- `T7Reader.read_string`: 4-byte length, then `self.f.read(size)` (which
silently returns fewer bytes at end of stream) decoded by `bytes.decode()`. -/
def read_string : M String := do
  let size ← read_int
  let bs ← fread size
  match utf8Decode bs with
  | some t => pure t
  | none => M.throw .unicodeDecodeError

/-- Python `int(s)` on a string: optional surrounding whitespace, an optional
sign, then one or more digits; anything else raises `ValueError`. -/
def pyParseInt (s : String) : Except PyErr Int :=
  let cs : List Char :=
    ((s.data.dropWhile Char.isWhitespace).reverse.dropWhile Char.isWhitespace).reverse
  let digits : List Char → Except PyErr Nat := fun ds =>
    if ds ≠ [] ∧ ds.all Char.isDigit then
      .ok (ds.foldl (fun a c => a * 10 + (c.toNat - 48)) 0)
    else .error .valueError
  match cs with
  | '-' :: ds => (digits ds).map (fun n => -(n : Int))
  | '+' :: ds => (digits ds).map (fun n => (n : Int))
  | ds => (digits ds).map (fun n => (n : Int))

/-- `version.startswith('V ')`, computed on the underlying characters. -/
def pyStartsWith (s p : String) : Bool := p.data.isPrefixOf s.data

/-- `version.partition(' ')[2]`: the text after the first space. -/
def partitionAfterSpace (s : String) : String :=
  match s.data.dropWhile (· ≠ ' ') with
  | [] => ""
  | _ :: rest => String.mk rest

/-- What the registered reader for a torch class name does: reconstruct a
strided tensor view, a contiguous storage, or wrap one nested value in a
`TorchObject` (the trivial class readers). -/
inductive RKind where
  | tensor (dt : Dtype)
  | storage (dt : Dtype)
  | trivial
deriving DecidableEq, Repr

/-- Slice of the `torch_readers` registry (kept in several parts only to ease
elaboration). -/
def torchReaders0 : List (String × RKind) := [
  ("torch.ByteTensor", RKind.tensor Dtype.uint8),
  ("torch.CharTensor", RKind.tensor Dtype.int8),
  ("torch.ShortTensor", RKind.tensor Dtype.int16),
  ("torch.IntTensor", RKind.tensor Dtype.int32),
  ("torch.LongTensor", RKind.tensor Dtype.int64),
  ("torch.FloatTensor", RKind.tensor Dtype.float32),
  ("torch.DoubleTensor", RKind.tensor Dtype.float64),
  ("torch.CudaTensor", RKind.tensor Dtype.float32),
  ("torch.CudaByteTensor", RKind.tensor Dtype.uint8),
  ("torch.CudaCharTensor", RKind.tensor Dtype.int8),
  ("torch.CudaShortTensor", RKind.tensor Dtype.int16),
  ("torch.CudaIntTensor", RKind.tensor Dtype.int32),
  ("torch.CudaDoubleTensor", RKind.tensor Dtype.float64),
  ("torch.ByteStorage", RKind.storage Dtype.uint8),
  ("torch.CharStorage", RKind.storage Dtype.int8),
  ("torch.ShortStorage", RKind.storage Dtype.int16),
  ("torch.IntStorage", RKind.storage Dtype.int32),
  ("torch.LongStorage", RKind.storage Dtype.int64),
  ("torch.FloatStorage", RKind.storage Dtype.float32),
  ("torch.DoubleStorage", RKind.storage Dtype.float64),
  ("torch.CudaStorage", RKind.storage Dtype.float32),
  ("torch.CudaByteStorage", RKind.storage Dtype.uint8),
  ("torch.CudaCharStorage", RKind.storage Dtype.int8),
  ("torch.CudaShortStorage", RKind.storage Dtype.int16),
  ("torch.CudaIntStorage", RKind.storage Dtype.int32),
  ("torch.CudaDoubleStorage", RKind.storage Dtype.float64),
  ("nn.ConcatTable", RKind.trivial),
  ("nn.SpatialAveragePooling", RKind.trivial),
  ("nn.TemporalConvolutionFB", RKind.trivial),
  ("nn.BCECriterion", RKind.trivial),
  ("nn.Reshape", RKind.trivial),
  ("nn.gModule", RKind.trivial),
  ("nn.SparseLinear", RKind.trivial),
  ("nn.WeightedLookupTable", RKind.trivial),
  ("nn.CAddTable", RKind.trivial),
  ("nn.TemporalConvolution", RKind.trivial),
  ("nn.PairwiseDistance", RKind.trivial),
  ("nn.WeightedMSECriterion", RKind.trivial),
  ("nn.SmoothL1Criterion", RKind.trivial),
  ("nn.TemporalSubSampling", RKind.trivial)]

def torchReaders1 : List (String × RKind) := [
  ("nn.TanhShrink", RKind.trivial),
  ("nn.MixtureTable", RKind.trivial),
  ("nn.Mul", RKind.trivial),
  ("nn.LogSoftMax", RKind.trivial),
  ("nn.Min", RKind.trivial),
  ("nn.Exp", RKind.trivial),
  ("nn.Add", RKind.trivial),
  ("nn.BatchNormalization", RKind.trivial),
  ("nn.AbsCriterion", RKind.trivial),
  ("nn.MultiCriterion", RKind.trivial),
  ("nn.LookupTableGPU", RKind.trivial),
  ("nn.Max", RKind.trivial),
  ("nn.MulConstant", RKind.trivial),
  ("nn.NarrowTable", RKind.trivial),
  ("nn.View", RKind.trivial),
  ("nn.ClassNLLCriterionWithUNK", RKind.trivial),
  ("nn.VolumetricConvolution", RKind.trivial),
  ("nn.SpatialSubSampling", RKind.trivial),
  ("nn.HardTanh", RKind.trivial),
  ("nn.DistKLDivCriterion", RKind.trivial),
  ("nn.SplitTable", RKind.trivial),
  ("nn.DotProduct", RKind.trivial),
  ("nn.HingeEmbeddingCriterion", RKind.trivial),
  ("nn.SpatialBatchNormalization", RKind.trivial),
  ("nn.DepthConcat", RKind.trivial),
  ("nn.Sigmoid", RKind.trivial),
  ("nn.SpatialAdaptiveMaxPooling", RKind.trivial),
  ("nn.Parallel", RKind.trivial),
  ("nn.SoftShrink", RKind.trivial),
  ("nn.SpatialSubtractiveNormalization", RKind.trivial),
  ("nn.TrueNLLCriterion", RKind.trivial),
  ("nn.Log", RKind.trivial),
  ("nn.SpatialDropout", RKind.trivial),
  ("nn.LeakyReLU", RKind.trivial),
  ("nn.VolumetricMaxPooling", RKind.trivial),
  ("nn.KMaxPooling", RKind.trivial),
  ("nn.Linear", RKind.trivial),
  ("nn.Euclidean", RKind.trivial),
  ("nn.CriterionTable", RKind.trivial),
  ("nn.SpatialMaxPooling", RKind.trivial)]

def torchReaders2 : List (String × RKind) := [
  ("nn.TemporalKMaxPooling", RKind.trivial),
  ("nn.MultiMarginCriterion", RKind.trivial),
  ("nn.ELU", RKind.trivial),
  ("nn.CSubTable", RKind.trivial),
  ("nn.MultiLabelMarginCriterion", RKind.trivial),
  ("nn.Copy", RKind.trivial),
  ("nn.CuBLASWrapper", RKind.trivial),
  ("nn.L1HingeEmbeddingCriterion", RKind.trivial),
  ("nn.VolumetricAveragePooling", RKind.trivial),
  ("nn.StochasticGradient", RKind.trivial),
  ("nn.SpatialContrastiveNormalization", RKind.trivial),
  ("nn.CosineEmbeddingCriterion", RKind.trivial),
  ("nn.CachingLookupTable", RKind.trivial),
  ("nn.FeatureLPPooling", RKind.trivial),
  ("nn.Padding", RKind.trivial),
  ("nn.Container", RKind.trivial),
  ("nn.MarginRankingCriterion", RKind.trivial),
  ("nn.Module", RKind.trivial),
  ("nn.ParallelCriterion", RKind.trivial),
  ("nn.DataParallelTable", RKind.trivial),
  ("nn.Concat", RKind.trivial),
  ("nn.CrossEntropyCriterion", RKind.trivial),
  ("nn.LookupTable", RKind.trivial),
  ("nn.SpatialSoftMax", RKind.trivial),
  ("nn.HardShrink", RKind.trivial),
  ("nn.Abs", RKind.trivial),
  ("nn.SoftMin", RKind.trivial),
  ("nn.WeightedEuclidean", RKind.trivial),
  ("nn.Replicate", RKind.trivial),
  ("nn.DataParallel", RKind.trivial),
  ("nn.OneBitQuantization", RKind.trivial),
  ("nn.OneBitDataParallel", RKind.trivial),
  ("nn.AddConstant", RKind.trivial),
  ("nn.L1Cost", RKind.trivial),
  ("nn.HSM", RKind.trivial),
  ("nn.PReLU", RKind.trivial),
  ("nn.JoinTable", RKind.trivial),
  ("nn.ClassNLLCriterion", RKind.trivial),
  ("nn.CMul", RKind.trivial),
  ("nn.CosineDistance", RKind.trivial)]

def torchReaders3 : List (String × RKind) := [
  ("nn.Index", RKind.trivial),
  ("nn.Mean", RKind.trivial),
  ("nn.FFTWrapper", RKind.trivial),
  ("nn.Dropout", RKind.trivial),
  ("nn.SpatialConvolutionCuFFT", RKind.trivial),
  ("nn.SoftPlus", RKind.trivial),
  ("nn.AbstractParallel", RKind.trivial),
  ("nn.SequentialCriterion", RKind.trivial),
  ("nn.LocallyConnected", RKind.trivial),
  ("nn.SpatialDivisiveNormalization", RKind.trivial),
  ("nn.L1Penalty", RKind.trivial),
  ("nn.Threshold", RKind.trivial),
  ("nn.Power", RKind.trivial),
  ("nn.Sqrt", RKind.trivial),
  ("nn.MM", RKind.trivial),
  ("nn.GroupKMaxPooling", RKind.trivial),
  ("nn.CrossMapNormalization", RKind.trivial),
  ("nn.ReLU", RKind.trivial),
  ("nn.ClassHierarchicalNLLCriterion", RKind.trivial),
  ("nn.Optim", RKind.trivial),
  ("nn.SoftMax", RKind.trivial),
  ("nn.SpatialConvolutionMM", RKind.trivial),
  ("nn.Cosine", RKind.trivial),
  ("nn.Clamp", RKind.trivial),
  ("nn.CMulTable", RKind.trivial),
  ("nn.LogSigmoid", RKind.trivial),
  ("nn.LinearNB", RKind.trivial),
  ("nn.TemporalMaxPooling", RKind.trivial),
  ("nn.MSECriterion", RKind.trivial),
  ("nn.Sum", RKind.trivial),
  ("nn.SoftSign", RKind.trivial),
  ("nn.Normalize", RKind.trivial),
  ("nn.ParallelTable", RKind.trivial),
  ("nn.FlattenTable", RKind.trivial),
  ("nn.CDivTable", RKind.trivial),
  ("nn.Tanh", RKind.trivial),
  ("nn.ModuleFromCriterion", RKind.trivial),
  ("nn.Square", RKind.trivial),
  ("nn.Select", RKind.trivial),
  ("nn.GradientReversal", RKind.trivial)]

def torchReaders4 : List (String × RKind) := [
  ("nn.SpatialFullConvolutionMap", RKind.trivial),
  ("nn.SpatialConvolution", RKind.trivial),
  ("nn.Criterion", RKind.trivial),
  ("nn.SpatialConvolutionMap", RKind.trivial),
  ("nn.SpatialLPPooling", RKind.trivial),
  ("nn.Sequential", RKind.trivial),
  ("nn.Transpose", RKind.trivial),
  ("nn.SpatialUpSamplingNearest", RKind.trivial),
  ("nn.SpatialFullConvolution", RKind.trivial),
  ("nn.ModelParallel", RKind.trivial),
  ("nn.RReLU", RKind.trivial),
  ("nn.SpatialZeroPadding", RKind.trivial),
  ("nn.Identity", RKind.trivial),
  ("nn.Narrow", RKind.trivial),
  ("nn.MarginCriterion", RKind.trivial),
  ("nn.SelectTable", RKind.trivial),
  ("nn.VolumetricFullConvolution", RKind.trivial),
  ("nn.SpatialFractionalMaxPooling", RKind.trivial),
  ("fbnn.ProjectiveGradientNormalization", RKind.trivial),
  ("fbnn.Probe", RKind.trivial),
  ("fbnn.SparseLinear", RKind.trivial),
  ("cudnn._Pooling3D", RKind.trivial),
  ("cudnn.VolumetricMaxPooling", RKind.trivial),
  ("cudnn.SpatialCrossEntropyCriterion", RKind.trivial),
  ("cudnn.VolumetricConvolution", RKind.trivial),
  ("cudnn.SpatialAveragePooling", RKind.trivial),
  ("cudnn.Tanh", RKind.trivial),
  ("cudnn.LogSoftMax", RKind.trivial),
  ("cudnn.SpatialConvolution", RKind.trivial),
  ("cudnn._Pooling", RKind.trivial),
  ("cudnn.SpatialMaxPooling", RKind.trivial),
  ("cudnn.ReLU", RKind.trivial),
  ("cudnn.SpatialCrossMapLRN", RKind.trivial),
  ("cudnn.SoftMax", RKind.trivial),
  ("cudnn._Pointwise", RKind.trivial),
  ("cudnn.SpatialSoftMax", RKind.trivial),
  ("cudnn.Sigmoid", RKind.trivial),
  ("cudnn.SpatialLogSoftMax", RKind.trivial),
  ("cudnn.VolumetricAveragePooling", RKind.trivial),
  ("nngraph.Node", RKind.trivial)]

def torchReaders5 : List (String × RKind) := [
  ("nngraph.JustTable", RKind.trivial),
  ("graph.Edge", RKind.trivial),
  ("graph.Node", RKind.trivial),
  ("graph.Graph", RKind.trivial)]

/-- The `torch_readers` registry: every entry added at import time by
`add_tensor_reader`, `add_storage_reader` and `add_trivial_class_reader`. -/
def torch_readers : List (String × RKind) :=
  torchReaders0 ++ torchReaders1 ++ torchReaders2 ++ torchReaders3 ++ torchReaders4 ++ torchReaders5

/-- `className in torch_readers` / `torch_readers[className]` lookup. -/
def lookupReader (name : String) : Option RKind :=
  (torch_readers.find? (fun e => e.1 = name)).map (·.2)

/-- The loop body shared by all `read_tensor_generic` closures made by
`add_tensor_reader`: header fields, then the storage via a recursive
`read_obj` (passed in as `readV`), then either the degenerate empty buffer or
an `as_strided` view over the storage with byte strides. -/
def read_tensor_generic (dt : Dtype) (cfg : Config) (readV : M Value) : M Value := do
  let ndim ← read_int
  let size ← read_long_array cfg ndim
  let stride ← read_long_array cfg ndim
  let storage_offset : Int := (← read_long cfg) - 1
  let storage ← readV
  match storage with
  | .VNil => pure (.VArr (npEmpty dt))
  | st =>
    if ndim = 0 ∨ size = [] ∨ stride = [] then pure (.VArr (npEmpty dt))
    else
      match st with
      | .VArr a => do
          let strideB : List Int := stride.map (fun x => (a.dtype.itemsize : Int) * x)
          let sliced ← M.lift (npSliceFrom a storage_offset)
          pure (.VArr (npAsStrided sliced size strideB))
      | _ => M.throw .attributeError

/-- The `read_storage` closures made by `add_storage_reader`: an element
count (long) then `np.fromfile(f, dtype, count=size)`, which reads up to
`size` whole elements (all remaining bytes when the count is negative) and
silently returns fewer at end of stream. -/
def read_storage (dt : Dtype) (cfg : Config) : M Value := do
  let size ← read_long cfg
  let raw ← fread (size * (dt.itemsize : Int))
  let cnt : Nat := raw.length / dt.itemsize
  pure (.VArr ⟨dt, raw.take (cnt * dt.itemsize), 0, [(cnt : Int)], [(dt.itemsize : Int)]⟩)

/-- Dispatch on a registry entry; `index` and `className` build the
`TorchObject` of a trivial class reader. -/
def runTorchReader (k : RKind) (index : Int) (className : String) (cfg : Config)
    (readV : M Value) : M Value :=
  match k with
  | .tensor dt => read_tensor_generic dt cfg readV
  | .storage dt => read_storage dt cfg
  | .trivial => do
      let o ← readV
      pure (.VObj index className o)

/-- The pair-reading loop of the table branch of `read_obj`, carrying the
associative container and the list-heuristic bookkeeping (`key_sum`,
`keys_natural`); `readV` is the recursive `read_obj` call. -/
def readPairsAux (cfg : Config) (readV : M Value) :
    Nat → List (Value × Value) → Int → Bool → M (List (Value × Value) × Int × Bool)
  | 0, es, ksum, knat => pure (es, ksum, knat)
  | m + 1, es, ksum, knat => do
      let k ← readV
      let v ← readV
      let es' ← M.lift (dictInsert es k v)
      if cfg.use_list_heuristic then
        if ¬ pyIsInt k ∨ pyIntVal k ≤ 0 then readPairsAux cfg readV m es' ksum false
        else readPairsAux cfg readV m es' (ksum + pyIntVal k) knat
      else readPairsAux cfg readV m es' ksum knat

/-- The list-conversion loop: `lst.append(obj[i + 1]) for i in range(n)`. -/
def buildList (es : List (Value × Value)) : Nat → Except PyErr (List Value)
  | 0 => .ok []
  | n + 1 => do
      let xs ← buildList es n
      let v ← dictGetInt es ((n : Int) + 1)
      .ok (xs ++ [v])

/-- `T7Reader.read_obj`, with fuel bounding the recursion depth (any fuel at
least the stream length is enough; theorems quantify over the fuel).  Mirrors
the source: type discriminant; inline scalars; for indexable kinds the object
index, the reference-table lookup that returns an already-read value, and
otherwise the payload, which is registered under the index only after it has
been fully read. -/
def read_obj (cfg : Config) : Nat → M Value
  | 0 => M.throw .outOfFuel
  | fuel + 1 => do
    let typeidx ← read_int
    if typeidx = 0 then pure .VNil
    else if typeidx = 1 then do
      let x ← read_double
      if cfg.use_int_heuristic ∧ x.isIntegral then pure (.VInt x.toPyInt)
      else pure (.VFloat x)
    else if typeidx = 5 then do
      let b ← read_boolean
      pure (.VBool b)
    else if typeidx = 2 then do
      let t ← read_string
      pure (.VStr t)
    else if typeidx = 3 ∨ typeidx = 4 ∨ typeidx = 6 ∨ typeidx = 8 ∨ typeidx = 7 then do
      let index ← read_int
      let st ← M.get
      match lookupObj st.objects index with
      | some v => pure v
      | none =>
        if typeidx = 6 ∨ typeidx = 8 ∨ typeidx = 7 then do
          let size ← read_int
          let dumped ← fread size
          let upvalues ← read_obj cfg fuel
          let obj := Value.VFunc size dumped upvalues
          registerObj index obj
          pure obj
        else if typeidx = 4 then do
          let version ← read_string
          let className ←
            if pyStartsWith version ("V ") then do
              let _ ← M.lift (pyParseInt (partitionAfterSpace version))
              read_string
            else pure version
          match lookupReader className with
          | none =>
            if ¬ cfg.force_deserialize_classes then M.throw .unsupportedClassError
            else do
              let o ← read_obj cfg fuel
              let obj := Value.VObj index className o
              registerObj index obj
              pure obj
          | some k => do
              let obj ← runTorchReader k index className cfg (read_obj cfg fuel)
              registerObj index obj
              pure obj
        else do
          let size ← read_int
          let r ← readPairsAux cfg (read_obj cfg fuel) size.toNat [] 0 true
          let obj ←
            if cfg.use_list_heuristic then
              if r.2.2 ∧ ((r.1.length : Int)) * ((r.1.length : Int) + 1) = 2 * r.2.1 then do
                let lst ← M.lift (buildList r.1 r.1.length)
                pure (Value.VList lst)
              else pure (Value.VTable index r.1)
            else pure (Value.VTable index r.1)
          registerObj index obj
          pure obj
    else M.throw .unknownObjectError

/-- The byte width `read_long` consumes under `cfg`. -/
def longW (cfg : Config) : Nat :=
  if cfg.force_8bytes_long then 8 else cfg.long_width

/-- Encoded form of one long under `cfg`. -/
def encLong (cfg : Config) (z : Int) : List Nat := encSigned (longW cfg) z

/-- Encoded form of a long array under `cfg`. -/
def encLongs (cfg : Config) (xs : List Int) : List Nat :=
  (xs.map (encLong cfg)).flatten

/-- `z` fits in a signed 32-bit int. -/
def intRange (z : Int) : Prop := -(2 ^ 31) ≤ z ∧ z < 2 ^ 31

/-- `z` fits in a signed long of the width `cfg` selects. -/
def longRange (cfg : Config) (z : Int) : Prop :=
  -(2 ^ (8 * longW cfg - 1)) ≤ z ∧ z < 2 ^ (8 * longW cfg - 1)

/-- What one read pair contributes to `key_sum` in the table loop. -/
def keyContrib (k : Value) : Int :=
  if pyIsInt k ∧ 0 < pyIntVal k then pyIntVal k else 0

/-- The per-key test of `keys_natural`: a Python int strictly above zero. -/
def natKey (k : Value) : Bool := pyIsInt k && decide (0 < pyIntVal k)

/-- Fold of dict updates: the associative container after inserting the read
pairs in order. -/
def insertAll (es : List (Value × Value)) (kvs : List (Value × Value)) :
    List (Value × Value) :=
  kvs.foldl (fun a kv => insertEntry a kv.1 kv.2) es

/-- The int key of a stored entry. -/
def entryKey (e : Value × Value) : Int := pyIntVal e.1

/-- Whether a value is a Python int at top level (`VInt`). -/
def isVIntV : Value → Bool
  | .VInt _ => true
  | _ => false

/-- No registered object is a bare Python int: `read_obj` only ever registers
tables, lists, `TorchObject`s, `LuaFunction`s and arrays. -/
def objectsNoInt (os : List (Int × Value)) : Prop :=
  ∀ e ∈ os, isVIntV e.2 = false

/-- `m` preserves the no-bare-int invariant of the reference table, and every
value it returns satisfies `P`. -/
def KeepsNoInt (m : M α) (P : α → Prop) : Prop :=
  ∀ s a s₁, objectsNoInt s.objects → m s = .ok (a, s₁) →
    P a ∧ objectsNoInt s₁.objects

/-! Infrastructure lemmas: running the monad, reading raw bytes, and the
encode/decode roundtrip for two's-complement integers. -/

theorem M.run_bind (x : M α) (f : α → M β) (s : RState) :
    (x >>= f) s = match x s with
      | .ok (a, s') => f a s'
      | .error e => .error e := rfl

theorem M.run_pure (a : α) (s : RState) : (pure a : M α) s = .ok (a, s) := rfl

theorem natBytes_length (w n : Nat) : (natBytes w n).length = w := by
  induction w generalizing n with
  | zero => rfl
  | succ w ih => simp [natBytes, ih]

theorem bytesToNat_natBytes (w n : Nat) :
    bytesToNat (natBytes w n) = n % 256 ^ w := by
  induction w generalizing n with
  | zero => simp [natBytes, bytesToNat, Nat.mod_one]
  | succ w ih =>
    simp only [natBytes, bytesToNat, ih]
    rw [pow_succ', Nat.mod_mul]
    omega

theorem encSigned_length (w : Nat) (z : Int) : (encSigned w z).length = w :=
  natBytes_length w _

theorem decodeSigned_encSigned (w : Nat) (hw : 1 ≤ w) (z : Int)
    (h1 : -(2 ^ (8 * w - 1)) ≤ z) (h2 : z < 2 ^ (8 * w - 1)) :
    decodeSigned w (encSigned w z) = z := by
  have h256 : (256 : ℕ) ^ w = 2 ^ (8 * w) := by
    rw [show (256 : ℕ) = 2 ^ 8 by norm_num, ← pow_mul]
  unfold decodeSigned encSigned toSigned
  rw [bytesToNat_natBytes, h256]
  set K : ℕ := 2 ^ (8 * w) with hK
  set H : ℕ := 2 ^ (8 * w - 1) with hH
  have hsplit : K = H * 2 := by
    rw [hK, hH, ← pow_succ]
    congr 1
    omega
  have hHcast : (H : ℤ) = 2 ^ (8 * w - 1) := by rw [hH]; push_cast; ring
  have hKcast : (K : ℤ) = 2 ^ (8 * w) := by rw [hK]; push_cast; ring
  rw [← hHcast] at h1 h2
  rw [← hKcast]
  have hKpos : (0 : ℤ) < (K : ℤ) := by
    have : 0 < K := by rw [hK]; positivity
    exact_mod_cast this
  have hm0 : 0 ≤ z % (K : ℤ) := Int.emod_nonneg z (ne_of_gt hKpos)
  have hm1 : z % (K : ℤ) < (K : ℤ) := Int.emod_lt_of_pos z hKpos
  set X : ℕ := (z % (K : ℤ)).toNat with hX
  have hXz : (X : ℤ) = z % (K : ℤ) := Int.toNat_of_nonneg hm0
  have hXlt : X < K := by
    have : (X : ℤ) < (K : ℤ) := by rw [hXz]; exact hm1
    exact_mod_cast this
  have hKH : ((K : ℕ) : ℤ) = 2 * (H : ℤ) := by
    rw [hsplit]; push_cast; ring
  have hA : (X : ℤ) = z ∨ (X : ℤ) = z + (K : ℤ) := by
    by_cases hz : 0 ≤ z
    · left
      rw [hXz, Int.emod_eq_of_lt hz (by linarith)]
    · right
      push_neg at hz
      have e1 : (z + (K : ℤ) * 1) % (K : ℤ) = z % (K : ℤ) :=
        Int.add_mul_emod_self_left z (K : ℤ) 1
      have e2 : (z + (K : ℤ)) % (K : ℤ) = z + (K : ℤ) :=
        Int.emod_eq_of_lt (by linarith) (by linarith)
      rw [mul_one] at e1
      rw [hXz, ← e1, e2]
  have emod : X % K = X := Nat.mod_eq_of_lt hXlt
  simp only [emod]
  split_ifs with hc
  · omega
  · omega

theorem M.bind_ok (x : M α) (f : α → M β) (s s' : RState) (a : α)
    (h : x s = .ok (a, s')) : (x >>= f) s = f a s' := by
  show M.bind x f s = _
  unfold M.bind
  rw [h]

theorem M.bind_err (x : M α) (f : α → M β) (s : RState) (e : PyErr)
    (h : x s = .error e) : (x >>= f) s = .error e := by
  show M.bind x f s = _
  unfold M.bind
  rw [h]

theorem M.lift_ok (a : α) (s : RState) : M.lift (.ok a) s = .ok (a, s) := rfl

theorem M.get_run (s : RState) : M.get s = .ok (s, s) := rfl

theorem M.throw_run (e : PyErr) (s : RState) : (M.throw e : M α) s = .error e := rfl

theorem registerObj_run (i : Int) (v : Value) (s : RState) :
    registerObj i v s = .ok ((), { s with objects := objUpdate s.objects i v }) := rfl

theorem t7read_ok (s : RState) (bs rest : List Nat) (w : Nat) (hw : 1 ≤ w)
    (h : s.data.drop s.pos = bs ++ rest) (hlen : bs.length = w) :
    t7read w s = .ok (bs, { s with pos := s.pos + w }) := by
  have hd := congrArg List.length h
  rw [List.length_drop, List.length_append, hlen] at hd
  unfold t7read
  rw [if_pos (by omega)]
  rw [h, ← hlen, List.take_left]

theorem t7read_err (s : RState) (w : Nat) (h : s.data.length < s.pos + w) :
    t7read w s = .error .structError := by
  unfold t7read
  rw [if_neg (by omega)]

theorem drop_after (s : RState) (bs rest : List Nat) (w : Nat)
    (h : s.data.drop s.pos = bs ++ rest) (hlen : bs.length = w) :
    s.data.drop (s.pos + w) = rest := by
  have e : s.data.drop (s.pos + w) = (s.data.drop s.pos).drop w := by
    rw [List.drop_drop, Nat.add_comm]
  rw [e, h, ← hlen, List.drop_left]

theorem read_int_ok (s : RState) (z : Int) (rest : List Nat)
    (h : s.data.drop s.pos = encInt z ++ rest) (hr : intRange z) :
    read_int s = .ok (z, { s with pos := s.pos + 4 }) := by
  unfold read_int
  rw [M.bind_ok _ _ s _ _ (t7read_ok s (encInt z) rest 4 (by omega) h (encSigned_length 4 z))]
  rw [show decodeSigned 4 (encInt z) = z from decodeSigned_encSigned 4 (by omega) z hr.1 hr.2]
  rfl

theorem read_long_ok (cfg : Config) (s : RState) (z : Int) (rest : List Nat)
    (hw : 1 ≤ longW cfg)
    (h : s.data.drop s.pos = encLong cfg z ++ rest) (hr : longRange cfg z) :
    read_long cfg s = .ok (z, { s with pos := s.pos + longW cfg }) := by
  unfold read_long
  unfold encLong at h
  unfold longRange at hr
  by_cases hf : cfg.force_8bytes_long
  · have hl : longW cfg = 8 := by simp [longW, hf]
    rw [hl] at h hr ⊢
    rw [if_pos hf]
    rw [M.bind_ok _ _ s _ _ (t7read_ok s (encSigned 8 z) rest 8 (by omega) h
      (encSigned_length 8 z))]
    rw [decodeSigned_encSigned 8 (by omega) z hr.1 hr.2]
    rfl
  · have hl : longW cfg = cfg.long_width := by simp [longW, hf]
    rw [hl] at h hr hw ⊢
    rw [if_neg hf]
    rw [M.bind_ok _ _ s _ _ (t7read_ok s (encSigned cfg.long_width z) rest cfg.long_width
      hw h (encSigned_length cfg.long_width z))]
    rw [decodeSigned_encSigned cfg.long_width hw z hr.1 hr.2]
    rfl

theorem read_double_ok (s : RState) (b8 rest : List Nat)
    (h : s.data.drop s.pos = b8 ++ rest) (hlen : b8.length = 8) :
    read_double s = .ok (decodeDouble b8, { s with pos := s.pos + 8 }) := by
  unfold read_double
  rw [M.bind_ok _ _ s _ _ (t7read_ok s b8 rest 8 (by omega) h hlen)]
  rfl

theorem read_boolean_ok (s : RState) (z : Int) (rest : List Nat)
    (h : s.data.drop s.pos = encInt z ++ rest) (hr : intRange z) :
    read_boolean s = .ok (decide (z = 1), { s with pos := s.pos + 4 }) := by
  unfold read_boolean
  rw [M.bind_ok _ _ s _ _ (read_int_ok s z rest h hr)]
  rfl

theorem fread_ok (s : RState) (n : Int) (bs rest : List Nat)
    (h : s.data.drop s.pos = bs ++ rest) (hn : (bs.length : Int) = n) :
    fread n s = .ok (bs, { s with pos := s.pos + bs.length }) := by
  have hd := congrArg List.length h
  rw [List.length_drop, List.length_append] at hd
  have hn' : n.toNat = bs.length := by omega
  have hng : ¬ n < 0 := by omega
  have hmin : min n.toNat (s.data.length - s.pos) = bs.length := by omega
  simp only [fread, if_neg hng, hmin]
  rw [h, List.take_left]

theorem fread_short (s : RState) (n : Int) (bs : List Nat)
    (h : s.data.drop s.pos = bs) (hn : (bs.length : Int) < n) :
    fread n s = .ok (bs, { s with pos := s.pos + bs.length }) := by
  have hd := congrArg List.length h
  rw [List.length_drop] at hd
  have hng : ¬ n < 0 := by omega
  have hmin : min n.toNat (s.data.length - s.pos) = bs.length := by omega
  simp only [fread, if_neg hng, hmin]
  rw [h, List.take_length]

theorem read_string_ok (s : RState) (n : Int) (bs rest : List Nat) (t : String)
    (h : s.data.drop s.pos = encInt n ++ (bs ++ rest)) (hr : intRange n)
    (hn : (bs.length : Int) = n) (hdec : utf8Decode bs = some t) :
    read_string s = .ok (t, { s with pos := s.pos + 4 + bs.length }) := by
  unfold read_string
  rw [M.bind_ok _ _ s _ _ (read_int_ok s n (bs ++ rest) h hr)]
  have h2 : s.data.drop (s.pos + 4) = bs ++ rest :=
    drop_after s (encInt n) (bs ++ rest) 4 h (encSigned_length 4 n)
  rw [M.bind_ok _ _ _ _ _ (fread_ok { s with pos := s.pos + 4 } n bs rest h2 hn)]
  rw [hdec]
  rfl

theorem encLongs_length (cfg : Config) (xs : List Int) :
    (encLongs cfg xs).length = xs.length * longW cfg := by
  induction xs with
  | nil => simp [encLongs]
  | cons x xs ih =>
    simp only [encLongs, List.map_cons, List.flatten_cons, List.length_append,
      List.length_cons]
    rw [show ((xs.map (encLong cfg)).flatten).length = (encLongs cfg xs).length from rfl, ih]
    rw [show (encLong cfg x).length = longW cfg from encSigned_length _ _]
    ring

theorem take_len_append (l₁ l₂ : List α) (w : Nat) (h : l₁.length = w) :
    (l₁ ++ l₂).take w = l₁ := by
  rw [← h]
  exact List.take_left _ _

theorem drop_len_append (l₁ l₂ : List α) (w : Nat) (h : l₁.length = w) :
    (l₁ ++ l₂).drop w = l₂ := by
  rw [← h]
  exact List.drop_left _ _

theorem decodeChunks_encLongs (cfg : Config) (hw : 1 ≤ longW cfg)
    (xs : List Int) (rest : List Nat) (hr : ∀ x ∈ xs, longRange cfg x) :
    decodeChunks (longW cfg) xs.length (encLongs cfg xs ++ rest) = xs := by
  induction xs generalizing rest with
  | nil => rfl
  | cons x xs ih =>
    have hx := hr x (List.mem_cons_self x xs)
    have hassoc : encLongs cfg (x :: xs) ++ rest =
        encLong cfg x ++ (encLongs cfg xs ++ rest) := by
      simp [encLongs, List.append_assoc]
    rw [hassoc]
    show decodeChunks (longW cfg) (xs.length + 1) _ = _
    simp only [decodeChunks]
    rw [take_len_append (encLong cfg x) _ (longW cfg) (encSigned_length _ _),
      drop_len_append (encLong cfg x) _ (longW cfg) (encSigned_length _ _)]
    rw [show decodeSigned (longW cfg) (encLong cfg x) = x from
      decodeSigned_encSigned (longW cfg) hw x hx.1 hx.2]
    rw [ih rest (fun y hy => hr y (List.mem_cons_of_mem x hy))]

theorem read_long_array_loop_ok (cfg : Config) (hf : cfg.force_8bytes_long = true)
    (xs acc : List Int) (s : RState) (rest : List Nat)
    (h : s.data.drop s.pos = encLongs cfg xs ++ rest)
    (hr : ∀ x ∈ xs, longRange cfg x) :
    read_long_array.loop cfg xs.length acc s =
      .ok (acc.reverse ++ xs, { s with pos := s.pos + xs.length * longW cfg }) := by
  induction xs generalizing acc s rest with
  | nil =>
    show M.pure (List.reverse acc) s = _
    simp [M.pure]
  | cons x xs ih =>
    have hx := hr x (List.mem_cons_self x xs)
    have hassoc : encLongs cfg (x :: xs) ++ rest =
        encLong cfg x ++ (encLongs cfg xs ++ rest) := by
      simp [encLongs, List.append_assoc]
    rw [hassoc] at h
    have hw : 1 ≤ longW cfg := by simp [longW, hf]
    show (read_long cfg >>= fun y => read_long_array.loop cfg xs.length (y :: acc)) s = _
    rw [M.bind_ok _ _ s _ _ (read_long_ok cfg s x (encLongs cfg xs ++ rest) hw h hx)]
    rw [ih (x :: acc) _ rest
      (drop_after s (encLong cfg x) _ (longW cfg) h (encSigned_length _ _))
      (fun y hy => hr y (List.mem_cons_of_mem x hy))]
    have hpos : s.pos + longW cfg + xs.length * longW cfg =
        s.pos + (xs.length + 1) * longW cfg := by ring
    simp [List.reverse_cons, List.append_assoc, hpos]

theorem read_long_array_ok (cfg : Config) (n : Int) (xs : List Int) (rest : List Nat)
    (s : RState) (hw : 1 ≤ longW cfg) (hn : (xs.length : Int) = n)
    (hp : s.pos ≤ s.data.length)
    (h : s.data.drop s.pos = encLongs cfg xs ++ rest)
    (hr : ∀ x ∈ xs, longRange cfg x) :
    read_long_array cfg n s =
      .ok (xs, { s with pos := s.pos + xs.length * longW cfg }) := by
  unfold read_long_array
  by_cases hf : cfg.force_8bytes_long
  · rw [if_pos hf]
    have hn' : n.toNat = xs.length := by omega
    rw [hn']
    have := read_long_array_loop_ok cfg hf xs [] s rest h hr
    simpa using this
  · rw [if_neg hf]
    have hng : ¬ n < 0 := by omega
    rw [if_neg hng]
    have hlw : longW cfg = cfg.long_width := by simp [longW, hf]
    have hd := congrArg List.length h
    rw [List.length_drop, List.length_append, encLongs_length] at hd
    have hn' : n.toNat = xs.length := by omega
    have henough : s.pos + n.toNat * cfg.long_width ≤ s.data.length := by
      rw [hn', ← hlw]
      omega
    rw [if_pos henough]
    rw [hn', ← hlw, h]
    rw [decodeChunks_encLongs cfg hw xs rest hr]

theorem t7read_bind_pure (w : Nat) (g : List Nat → α) (s s' : RState) (v : α)
    (h : (t7read w >>= fun bs => pure (g bs)) s = .ok (v, s')) :
    s'.data = s.data ∧ s'.objects = s.objects ∧ s'.pos = s.pos + w := by
  by_cases hc : s.pos + w ≤ s.data.length
  · have ht : t7read w s = .ok ((s.data.drop s.pos).take w, { s with pos := s.pos + w }) := by
      unfold t7read
      rw [if_pos hc]
    rw [M.bind_ok _ _ _ _ _ ht] at h
    have h2 : (Except.ok (g ((s.data.drop s.pos).take w), { s with pos := s.pos + w }) :
        Except PyErr (α × RState)) = .ok (v, s') := h
    simp only [Except.ok.injEq, Prod.mk.injEq] at h2
    rw [← h2.2]
    exact ⟨rfl, rfl, rfl⟩
  · have ht : t7read w s = .error .structError := by
      unfold t7read
      rw [if_neg hc]
    rw [M.bind_err _ _ _ _ ht] at h
    simp at h

/-- Claim C8, amended: `read_long` consumes exactly 8 bytes when
`force_8bytes_long` is selected, and otherwise exactly the platform's native
C long width (`struct.calcsize('l')`, modelled by `cfg.long_width`, which is
8 on LP64 Unix platforms and 4 only on 32-bit or Windows platforms); the
consumed width is determined by the flag and the platform, never by the
stream contents or the reference table. -/
theorem c8_read_long_width (cfg : Config) (s s' : RState) (v : Int)
    (h : read_long cfg s = .ok (v, s')) :
    s'.data = s.data ∧ s'.objects = s.objects ∧
      s'.pos = s.pos + (if cfg.force_8bytes_long then 8 else cfg.long_width) := by
  unfold read_long at h
  by_cases hf : cfg.force_8bytes_long
  · rw [if_pos hf] at h
    rw [if_pos hf]
    exact t7read_bind_pure 8 _ s s' v h
  · rw [if_neg hf] at h
    rw [if_neg hf]
    exact t7read_bind_pure cfg.long_width _ s s' v h

theorem c8_witness :
    ({ data := [9, 9, 9, 9, 9, 9, 9, 9], pos := 8, objects := [] } : RState).pos =
      ({ data := [9, 9, 9, 9, 9, 9, 9, 9], pos := 0, objects := [] } : RState).pos +
        (if ({} : Config).force_8bytes_long then 8 else ({} : Config).long_width) :=
  (c8_read_long_width {} { data := [9, 9, 9, 9, 9, 9, 9, 9], pos := 0, objects := [] }
    { data := [9, 9, 9, 9, 9, 9, 9, 9], pos := 8, objects := [] }
    (decodeSigned 8 [9, 9, 9, 9, 9, 9, 9, 9]) rfl).2.2

/-- Claim C8, counterexample to the claim as stated: under the default
constructor options on an LP64 platform (native long width 8, the platform
this repository targets), `read_long` consumes 8 bytes, not 4. -/
theorem c8_counterexample :
    read_long {} { data := [0, 0, 0, 0, 0, 0, 0, 0], pos := 0, objects := [] } =
      .ok (0, { data := [0, 0, 0, 0, 0, 0, 0, 0], pos := 8, objects := [] }) ∧
      (8 : Nat) ≠ 4 := by
  constructor
  · rfl
  · decide

/-- Claim C4, amended: every fixed-width primitive read (`_read`, hence
`read_int`, `read_long`, `read_double`) raises `struct.error` when fewer
bytes remain than the primitive needs, and never returns shortened or
zero-filled data; but the length-prefixed byte read of `read_string` does
NOT raise on truncation — `self.f.read(size)` silently returns only the
remaining bytes, and `read_string` decodes that shortened payload (failing
only if the shortened bytes are not valid UTF-8). -/
theorem c4_truncation :
    (∀ s : RState, s.data.length < s.pos + 4 → read_int s = .error .structError) ∧
    (∀ (cfg : Config) (s : RState), s.data.length < s.pos + longW cfg →
      read_long cfg s = .error .structError) ∧
    (∀ s : RState, s.data.length < s.pos + 8 → read_double s = .error .structError) ∧
    (∀ (s : RState) (n : Int) (bs : List Nat),
      s.data.drop s.pos = encInt n ++ bs → intRange n → (bs.length : Int) < n →
      read_string s = (match utf8Decode bs with
        | some t => .ok (t, { s with pos := s.pos + 4 + bs.length })
        | none => .error .unicodeDecodeError)) := by
  refine ⟨?_, ?_, ?_, ?_⟩
  · intro s hs
    unfold read_int
    rw [M.bind_err _ _ _ _ (t7read_err s 4 hs)]
  · intro cfg s hs
    unfold read_long
    by_cases hf : cfg.force_8bytes_long
    · rw [if_pos hf]
      have hs8 : s.data.length < s.pos + 8 := by
        have : longW cfg = 8 := by simp [longW, hf]
        omega
      rw [M.bind_err _ _ _ _ (t7read_err s 8 hs8)]
    · rw [if_neg hf]
      have hsw : s.data.length < s.pos + cfg.long_width := by
        have : longW cfg = cfg.long_width := by simp [longW, hf]
        omega
      rw [M.bind_err _ _ _ _ (t7read_err s cfg.long_width hsw)]
  · intro s hs
    unfold read_double
    rw [M.bind_err _ _ _ _ (t7read_err s 8 hs)]
  · intro s n bs h hr hlen
    unfold read_string
    rw [M.bind_ok _ _ _ _ _ (read_int_ok s n bs h hr)]
    have h2 : s.data.drop (s.pos + 4) = bs :=
      drop_after s (encInt n) bs 4 h (encSigned_length 4 n)
    rw [M.bind_ok _ _ _ _ _ (fread_short { s with pos := s.pos + 4 } n bs h2 hlen)]
    cases hdec : utf8Decode bs with
    | some t => rfl
    | none => rfl

theorem c4_witness :
    read_int { data := [1, 2], pos := 0, objects := [] } = .error .structError ∧
    read_string { data := encInt 5 ++ [65, 66], pos := 0, objects := [] } =
      .ok ("AB", { data := encInt 5 ++ [65, 66], pos := 6, objects := [] }) := by
  constructor
  · exact c4_truncation.1 { data := [1, 2], pos := 0, objects := [] } (by decide)
  · have := c4_truncation.2.2.2 { data := encInt 5 ++ [65, 66], pos := 0, objects := [] }
      5 [65, 66] rfl (by constructor <;> decide) (by decide)
    simpa using this

/-- Claim C4, counterexample to the claim as stated: a `String` payload
announcing 7 bytes over a stream holding only the 2 bytes `"XY"` is read
without any error — `read_string` returns the silently shortened data
instead of raising a truncation error. -/
theorem c4_counterexample :
    read_string { data := encInt 7 ++ [88, 89], pos := 0, objects := [] } =
      .ok ("XY", { data := encInt 7 ++ [88, 89], pos := 6, objects := [] }) := rfl

/-- Claim C5: `read_string` does not return the raw payload bytes — it
decodes them with `bytes.decode()`.  A one-byte payload `0xFF` is not valid
UTF-8 and raises `UnicodeDecodeError`, so not every byte content is
accepted, contradicting the claim (and the module docstring, which promises
strings are "read as byte strings"). -/
theorem c5_invalid_byte_raises :
    read_string { data := encInt 1 ++ [0xFF], pos := 0, objects := [] } =
      .error .unicodeDecodeError := rfl

/-- Claim C9: a Number payload is an 8-byte float; with the int heuristic on
and an integral value the result is the Python int of that value, otherwise
the float is returned unchanged; 12 bytes (tag + payload) are consumed and
the reference table is untouched. -/
theorem c9_number_narrowing (cfg : Config) (fuel : Nat) (s : RState)
    (b8 rest : List Nat)
    (h : s.data.drop s.pos = encInt 1 ++ (b8 ++ rest)) (hlen : b8.length = 8) :
    (cfg.use_int_heuristic = true → (decodeDouble b8).isIntegral = true →
      read_obj cfg (fuel + 1) s =
        .ok (.VInt (decodeDouble b8).toPyInt, { s with pos := s.pos + 4 + 8 })) ∧
    (cfg.use_int_heuristic = false ∨ (decodeDouble b8).isIntegral = false →
      read_obj cfg (fuel + 1) s =
        .ok (.VFloat (decodeDouble b8), { s with pos := s.pos + 4 + 8 })) := by
  have hdrop2 : s.data.drop (s.pos + 4) = b8 ++ rest :=
    drop_after s (encInt 1) (b8 ++ rest) 4 h (encSigned_length 4 1)
  constructor
  · intro hh hi
    simp only [read_obj]
    rw [M.bind_ok _ _ _ _ _ (read_int_ok s 1 (b8 ++ rest) h ⟨by decide, by decide⟩)]
    norm_num
    rw [M.bind_ok _ _ _ _ _ (read_double_ok { s with pos := s.pos + 4 } b8 rest hdrop2 hlen)]
    rw [if_pos ⟨hh, hi⟩]
    rfl
  · intro hh
    simp only [read_obj]
    rw [M.bind_ok _ _ _ _ _ (read_int_ok s 1 (b8 ++ rest) h ⟨by decide, by decide⟩)]
    norm_num
    rw [M.bind_ok _ _ _ _ _ (read_double_ok { s with pos := s.pos + 4 } b8 rest hdrop2 hlen)]
    rw [if_neg (by
      intro hc
      rcases hh with hh | hh
      · rw [hh] at hc
        exact absurd hc.1 (by simp)
      · rw [hh] at hc
        exact absurd hc.2 (by simp))]
    rfl

set_option maxRecDepth 40000 in
theorem c9_witness :
    read_obj {} 1 { data := encInt 1 ++ [0, 0, 0, 0, 0, 0, 0x10, 0x40], pos := 0, objects := [] } =
      .ok (.VInt 4, { data := encInt 1 ++ [0, 0, 0, 0, 0, 0, 0x10, 0x40], pos := 0 + 4 + 8, objects := [] }) := by
  have h := (c9_number_narrowing {} 0
    { data := encInt 1 ++ [0, 0, 0, 0, 0, 0, 0x10, 0x40], pos := 0, objects := [] }
    [0, 0, 0, 0, 0, 0, 0x10, 0x40] [] (by rfl) (by rfl)).1 rfl (by rfl)
  rw [h]
  rfl

/-- Claim C2: when the object index following an indexable discriminant
(Table 3, ClassInstance 4, Function 6/8, legacy 7) is already present in the
Reference Table, `read_obj` returns exactly the value stored there — the
registered instance itself — consumes only the 8 bytes of discriminant and
index, and leaves the stream and reference table unchanged. -/
theorem c2_repeated_index (cfg : Config) (fuel : Nat) (s : RState) (t idx : Int)
    (v : Value) (rest : List Nat)
    (ht : t = 3 ∨ t = 4 ∨ t = 6 ∨ t = 8 ∨ t = 7)
    (h : s.data.drop s.pos = encInt t ++ (encInt idx ++ rest))
    (hr : intRange idx)
    (hv : lookupObj s.objects idx = some v) :
    read_obj cfg (fuel + 1) s = .ok (v, { s with pos := s.pos + 8 }) := by
  have h2 : s.data.drop (s.pos + 4) = encInt idx ++ rest :=
    drop_after s (encInt t) (encInt idx ++ rest) 4 h (encSigned_length 4 t)
  have e8 : s.pos + 4 + 4 = s.pos + 8 := by omega
  rcases ht with rfl | rfl | rfl | rfl | rfl <;>
  · simp only [read_obj]
    rw [M.bind_ok _ _ _ _ _ (read_int_ok s _ (encInt idx ++ rest) h ⟨by decide, by decide⟩)]
    norm_num
    rw [M.bind_ok _ _ _ _ _ (read_int_ok _ idx rest h2 hr)]
    rw [M.bind_ok _ _ _ _ _ (M.get_run _)]
    simp only [hv, e8]
    rfl

theorem c2_witness :
    read_obj {} 3 { data := encInt 3 ++ encInt 7, pos := 0, objects := [(7, .VStr "X")] } =
      .ok (.VStr "X", { data := encInt 3 ++ encInt 7, pos := 0 + 8, objects := [(7, .VStr "X")] }) :=
  c2_repeated_index {} 2 { data := encInt 3 ++ encInt 7, pos := 0, objects := [(7, .VStr "X")] }
    3 7 (.VStr "X") [] (Or.inl rfl) (by simp) ⟨by decide, by decide⟩ rfl

theorem drop_add (l : List α) (p w : Nat) (bs rest : List α)
    (h : l.drop p = bs ++ rest) (hlen : bs.length = w) :
    l.drop (p + w) = rest := by
  have e : l.drop (p + w) = (l.drop p).drop w := by
    rw [List.drop_drop, Nat.add_comm]
  rw [e, h, ← hlen, List.drop_left]

/-- Claim C1, amended: `read_obj` registers a table's index in the Reference
Table only AFTER its pairs have been read (`self.objects[index] = obj` runs
after the loop), so a back-reference to the enclosing table's own index is
not resolved from the table: the nested occurrence misses the Reference
Table and is parsed as a fresh object.  In particular the minimal
self-referential stream — a table at fresh index `idx` with one pair whose
value is the bare back-reference `[3, idx]`, the stream ending there — fails
with `struct.error` instead of producing a self-containing table, for every
configuration and any sufficient fuel. -/
theorem c1_self_reference_fails (cfg : Config) (fuel : Nat) (s : RState) (idx : Int)
    (hr : intRange idx)
    (h : s.data.drop s.pos =
      encInt 3 ++ (encInt idx ++ (encInt 1 ++ (encInt 0 ++ (encInt 3 ++ encInt idx)))))
    (hnone : lookupObj s.objects idx = none) :
    read_obj cfg (fuel + 2) s = .error .structError := by
  have hlen : ∀ z : Int, (encInt z).length = 4 := fun z => encSigned_length 4 z
  have h4 := drop_add s.data s.pos 4 _ _ h (hlen 3)
  have h8 := drop_add s.data (s.pos + 4) 4 _ _ h4 (hlen idx)
  have h12 := drop_add s.data (s.pos + 4 + 4) 4 _ _ h8 (hlen 1)
  have h16 := drop_add s.data (s.pos + 4 + 4 + 4) 4 _ _ h12 (hlen 0)
  have h20' : s.data.drop (s.pos + 4 + 4 + 4 + 4 + 4) = encInt idx ++ [] := by
    rw [drop_add s.data (s.pos + 4 + 4 + 4 + 4) 4 _ _ h16 (hlen 3), List.append_nil]
  have hend : s.data.length = s.pos + 24 := by
    have hd := congrArg List.length h
    rw [List.length_drop] at hd
    simp only [List.length_append, hlen] at hd
    omega
  have hk : read_obj cfg (fuel + 1) { s with pos := s.pos + 4 + 4 + 4 } =
      .ok (.VNil, { s with pos := s.pos + 4 + 4 + 4 + 4 }) := by
    simp only [read_obj]
    rw [M.bind_ok _ _ _ _ _
      (read_int_ok { s with pos := s.pos + 4 + 4 + 4 } 0 _ h12 ⟨by decide, by decide⟩)]
    rfl
  have hv : read_obj cfg (fuel + 1) { s with pos := s.pos + 4 + 4 + 4 + 4 } =
      .error .structError := by
    simp only [read_obj]
    rw [M.bind_ok _ _ _ _ _
      (read_int_ok { s with pos := s.pos + 4 + 4 + 4 + 4 } 3 _ h16 ⟨by decide, by decide⟩)]
    show (read_int >>= _) { s with pos := s.pos + 4 + 4 + 4 + 4 + 4 } = _
    rw [M.bind_ok _ _ _ _ _
      (read_int_ok { s with pos := s.pos + 4 + 4 + 4 + 4 + 4 } idx [] h20' hr)]
    rw [M.bind_ok _ _ _ _ _ (M.get_run _)]
    simp only [hnone]
    show (read_int >>= _) { s with pos := s.pos + 4 + 4 + 4 + 4 + 4 + 4 } = _
    apply M.bind_err
    apply M.bind_err
    exact t7read_err { s with pos := s.pos + 4 + 4 + 4 + 4 + 4 + 4 } 4
      (by show s.data.length < s.pos + 4 + 4 + 4 + 4 + 4 + 4 + 4; omega)
  have hpair : readPairsAux cfg (read_obj cfg (fuel + 1)) 1 [] 0 true
      { s with pos := s.pos + 4 + 4 + 4 } = .error .structError := by
    simp only [readPairsAux]
    rw [M.bind_ok _ _ _ _ _ hk]
    rw [M.bind_err _ _ _ _ hv]
  show read_obj cfg (fuel + 1 + 1) s = .error .structError
  simp only [read_obj]
  rw [M.bind_ok _ _ _ _ _ (read_int_ok s 3 _ h ⟨by decide, by decide⟩)]
  show (read_int >>= _) { s with pos := s.pos + 4 } = _
  rw [M.bind_ok _ _ _ _ _ (read_int_ok { s with pos := s.pos + 4 } idx _ h4 hr)]
  rw [M.bind_ok _ _ _ _ _ (M.get_run _)]
  simp only [hnone]
  show (read_int >>= _) { s with pos := s.pos + 4 + 4 } = _
  rw [M.bind_ok _ _ _ _ _
    (read_int_ok { s with pos := s.pos + 4 + 4 } 1 _ h8 ⟨by decide, by decide⟩)]
  apply M.bind_err
  show readPairsAux cfg (read_obj cfg (fuel + 1)) 1 [] 0 true
    { s with pos := s.pos + 4 + 4 + 4 } = _
  exact hpair

theorem c1_witness :
    read_obj {} 2 { data := encInt 3 ++ (encInt 7 ++ (encInt 1 ++ (encInt 0 ++ (encInt 3 ++ encInt 7)))), pos := 0, objects := [] } =
      .error .structError :=
  c1_self_reference_fails {} 0
    { data := encInt 3 ++ (encInt 7 ++ (encInt 1 ++ (encInt 0 ++ (encInt 3 ++ encInt 7)))), pos := 0, objects := [] }
    7 ⟨by decide, by decide⟩ rfl rfl

/-- Claim C1, counterexample to the claim as stated: the synthetic stream in
which table A (object index 1) has a single entry whose value is a reference
back to A's own index does not deserialize to a self-containing table — it
fails with `struct.error`, because index 1 is not yet in the Reference Table
when the nested reference is read. -/
theorem c1_counterexample :
    read_obj {} 5 { data := encInt 3 ++ encInt 1 ++ encInt 1 ++ encInt 0 ++ encInt 3 ++ encInt 1, pos := 0, objects := [] } =
      .error .structError := rfl

/-- Claim C7: a ClassInstance whose (unversioned) class name is absent from
`torch_readers` raises `T7ReaderException` (unsupported torch class) in
strict mode (`force_deserialize_classes = False`), and in lenient mode (the
default) instead reads one nested value and returns the generic
`TorchObject` wrapper exposing the class name and that value, registered
under the object index. -/
theorem c7_unknown_class (cfg : Config) (fuel : Nat) (s : RState) (idx : Int)
    (name : String) (nb rest : List Nat)
    (hr : intRange idx) (hnlen : ((nb.length : Int) < 2 ^ 31))
    (h : s.data.drop s.pos =
      encInt 4 ++ (encInt idx ++ (encInt nb.length ++ (nb ++ rest))))
    (hdec : utf8Decode nb = some name)
    (hsw : pyStartsWith name ("V ") = false)
    (hreg : lookupReader name = none)
    (hnone : lookupObj s.objects idx = none) :
    (cfg.force_deserialize_classes = false →
      read_obj cfg (fuel + 1) s = .error .unsupportedClassError) ∧
    (cfg.force_deserialize_classes = true →
      ∀ (p : Value) (s₂ : RState),
        read_obj cfg fuel { s with pos := s.pos + 4 + 4 + 4 + nb.length } = .ok (p, s₂) →
        read_obj cfg (fuel + 1) s =
          .ok (.VObj idx name p,
            { s₂ with objects := objUpdate s₂.objects idx (.VObj idx name p) })) := by
  have hlen : ∀ z : Int, (encInt z).length = 4 := fun z => encSigned_length 4 z
  have h4 := drop_add s.data s.pos 4 _ _ h (hlen 4)
  have h8 := drop_add s.data (s.pos + 4) 4 _ _ h4 (hlen idx)
  have hstr : read_string { s with pos := s.pos + 4 + 4 } =
      .ok (name, { s with pos := s.pos + 4 + 4 + 4 + nb.length }) :=
    read_string_ok { s with pos := s.pos + 4 + 4 } nb.length nb rest name h8
      ⟨le_trans (by norm_num) (Int.natCast_nonneg _), hnlen⟩ rfl hdec
  constructor
  · intro hf
    simp only [read_obj]
    rw [M.bind_ok _ _ _ _ _ (read_int_ok s 4 _ h ⟨by decide, by decide⟩)]
    show (read_int >>= _) { s with pos := s.pos + 4 } = _
    rw [M.bind_ok _ _ _ _ _ (read_int_ok { s with pos := s.pos + 4 } idx _ h4 hr)]
    rw [M.bind_ok _ _ _ _ _ (M.get_run _)]
    simp only [hnone]
    show (read_string >>= _) { s with pos := s.pos + 4 + 4 } = _
    rw [M.bind_ok _ _ _ _ _ hstr]
    rw [if_neg (by simp [hsw])]
    rw [M.bind_ok (pure name) _ { s with pos := s.pos + 4 + 4 + 4 + nb.length }
      { s with pos := s.pos + 4 + 4 + 4 + nb.length } name rfl]
    simp only [hreg]
    rw [if_pos (by simp [hf])]
    rfl
  · intro hf p s₂ hq
    simp only [read_obj]
    rw [M.bind_ok _ _ _ _ _ (read_int_ok s 4 _ h ⟨by decide, by decide⟩)]
    show (read_int >>= _) { s with pos := s.pos + 4 } = _
    rw [M.bind_ok _ _ _ _ _ (read_int_ok { s with pos := s.pos + 4 } idx _ h4 hr)]
    rw [M.bind_ok _ _ _ _ _ (M.get_run _)]
    simp only [hnone]
    show (read_string >>= _) { s with pos := s.pos + 4 + 4 } = _
    rw [M.bind_ok _ _ _ _ _ hstr]
    rw [if_neg (by simp [hsw])]
    rw [M.bind_ok (pure name) _ { s with pos := s.pos + 4 + 4 + 4 + nb.length }
      { s with pos := s.pos + 4 + 4 + 4 + nb.length } name rfl]
    simp only [hreg]
    rw [if_neg (by simp [hf])]
    rw [M.bind_ok _ _ _ _ _ hq]
    rw [M.bind_ok _ _ _ _ _ (registerObj_run idx _ s₂)]
    rfl

theorem c7_witness :
    read_obj {} 2 { data := encInt 4 ++ (encInt 9 ++ (encInt 7 ++ ([0x66, 0x6F, 0x6F, 0x2E, 0x42, 0x61, 0x72] ++ encInt 0))), pos := 0, objects := [] } =
      .ok (.VObj 9 "foo.Bar" .VNil, { data := encInt 4 ++ (encInt 9 ++ (encInt 7 ++ ([0x66, 0x6F, 0x6F, 0x2E, 0x42, 0x61, 0x72] ++ encInt 0))), pos := 23, objects := [(9, .VObj 9 "foo.Bar" .VNil)] }) := by
  have h := (c7_unknown_class {} 1
    { data := encInt 4 ++ (encInt 9 ++ (encInt 7 ++ ([0x66, 0x6F, 0x6F, 0x2E, 0x42, 0x61, 0x72] ++ encInt 0))), pos := 0, objects := [] }
    9 "foo.Bar" [0x66, 0x6F, 0x6F, 0x2E, 0x42, 0x61, 0x72] (encInt 0)
    ⟨by decide, by decide⟩ (by decide) rfl rfl rfl rfl rfl).2 rfl .VNil
    { data := encInt 4 ++ (encInt 9 ++ (encInt 7 ++ ([0x66, 0x6F, 0x6F, 0x2E, 0x42, 0x61, 0x72] ++ encInt 0))), pos := 23, objects := [] } rfl
  rw [h]
  rfl

/-- Claim C6: the tensor reader consumes `ndim` (int), an `ndim`-long size
array, an `ndim`-long stride array and a 1-based storage offset (long,
converted to 0-based by subtracting 1), then reads the storage object with
the recursive `read_obj`; if the storage is absent (`nil`), `ndim` is 0, or
either array is empty, the result is the zero-length buffer
`np.empty((0), dtype)` of the tensor's element type rather than a view;
otherwise it is the strided view over the storage starting at the 0-based
offset, with each encoded element-unit stride converted to bytes by
multiplying with the storage's element byte width. -/
theorem c6_tensor_reconstruction (dt : Dtype) (cfg : Config) (fuel : Nat) (s : RState)
    (ndim : Int) (sizes strides : List Int) (off : Int) (rest : List Nat)
    (hw : 1 ≤ longW cfg) (hndr : intRange ndim)
    (hs : (sizes.length : Int) = ndim) (hst : (strides.length : Int) = ndim)
    (hrs : ∀ x ∈ sizes, longRange cfg x) (hrt : ∀ x ∈ strides, longRange cfg x)
    (hro : longRange cfg off)
    (h : s.data.drop s.pos = encInt ndim ++
      (encLongs cfg sizes ++ (encLongs cfg strides ++ (encLong cfg off ++ rest)))) :
    (∀ s₂ : RState,
      read_obj cfg fuel { s with pos := s.pos + 4 + sizes.length * longW cfg + strides.length * longW cfg + longW cfg } = .ok (.VNil, s₂) →
      read_tensor_generic dt cfg (read_obj cfg fuel) s = .ok (.VArr (npEmpty dt), s₂)) ∧
    (∀ (a : NpArray) (s₂ : RState),
      read_obj cfg fuel { s with pos := s.pos + 4 + sizes.length * longW cfg + strides.length * longW cfg + longW cfg } = .ok (.VArr a, s₂) →
      ((ndim = 0 ∨ sizes = [] ∨ strides = []) →
        read_tensor_generic dt cfg (read_obj cfg fuel) s = .ok (.VArr (npEmpty dt), s₂)) ∧
      (∀ (d t : Int) (ds ts : List Int), a.shape = d :: ds → a.strides = t :: ts →
        ¬(ndim = 0 ∨ sizes = [] ∨ strides = []) → 0 ≤ off - 1 → off - 1 ≤ d →
        read_tensor_generic dt cfg (read_obj cfg fuel) s =
          .ok (.VArr ⟨a.dtype, a.base, a.start + (off - 1) * t, sizes,
            strides.map (fun x => (a.dtype.itemsize : Int) * x)⟩, s₂))) := by
  have hlen4 : (encInt ndim).length = 4 := encSigned_length 4 ndim
  have hd := congrArg List.length h
  rw [List.length_drop] at hd
  simp only [List.length_append, encLongs_length, hlen4,
    show (encLong cfg off).length = longW cfg from encSigned_length _ _] at hd
  have h4 := drop_add s.data s.pos 4 _ _ h hlen4
  have hA := drop_add s.data (s.pos + 4) (sizes.length * longW cfg) _ _ h4
    (encLongs_length cfg sizes)
  have hB := drop_add s.data (s.pos + 4 + sizes.length * longW cfg)
    (strides.length * longW cfg) _ _ hA (encLongs_length cfg strides)
  have hhp1 : s.pos + 4 ≤ s.data.length := by omega
  have hhp2 : s.pos + 4 + sizes.length * longW cfg ≤ s.data.length := by omega
  have header : ∀ (stor : Value) (s₂ : RState) (G : Except PyErr (Value × RState)),
      read_obj cfg fuel { s with pos := s.pos + 4 + sizes.length * longW cfg + strides.length * longW cfg + longW cfg } = .ok (stor, s₂) →
      ((match stor with
        | .VNil => pure (.VArr (npEmpty dt))
        | st =>
          if ndim = 0 ∨ sizes = [] ∨ strides = [] then pure (.VArr (npEmpty dt))
          else
            match st with
            | .VArr a => do
                let strideB : List Int := strides.map (fun x => (a.dtype.itemsize : Int) * x)
                let sliced ← M.lift (npSliceFrom a (off - 1))
                pure (.VArr (npAsStrided sliced sizes strideB))
            | _ => M.throw .attributeError : M Value) s₂ = G) →
      read_tensor_generic dt cfg (read_obj cfg fuel) s = G := by
    intro stor s₂ G hstor hG
    unfold read_tensor_generic
    rw [M.bind_ok _ _ _ _ _ (read_int_ok s ndim _ h hndr)]
    show (read_long_array cfg ndim >>= _) { s with pos := s.pos + 4 } = _
    rw [M.bind_ok _ _ _ _ _ (read_long_array_ok cfg ndim sizes _
      { s with pos := s.pos + 4 } hw hs hhp1 h4 hrs)]
    show (read_long_array cfg ndim >>= _)
      { s with pos := s.pos + 4 + sizes.length * longW cfg } = _
    rw [M.bind_ok _ _ _ _ _ (read_long_array_ok cfg ndim strides _
      { s with pos := s.pos + 4 + sizes.length * longW cfg } hw hst hhp2 hA hrt)]
    show (read_long cfg >>= _)
      { s with pos := s.pos + 4 + sizes.length * longW cfg + strides.length * longW cfg } = _
    rw [M.bind_ok _ _ _ _ _ (read_long_ok cfg
      { s with pos := s.pos + 4 + sizes.length * longW cfg + strides.length * longW cfg }
      off _ hw hB hro)]
    show (read_obj cfg fuel >>= _)
      { s with pos := s.pos + 4 + sizes.length * longW cfg + strides.length * longW cfg + longW cfg } = _
    rw [M.bind_ok _ _ _ _ _ hstor]
    exact hG
  constructor
  · intro s₂ hstor
    exact header .VNil s₂ _ hstor rfl
  · intro a s₂ hstor
    constructor
    · intro hdeg
      refine header (.VArr a) s₂ _ hstor ?_
      show (if ndim = 0 ∨ sizes = [] ∨ strides = [] then
        (pure (.VArr (npEmpty dt)) : M Value) else _) s₂ = _
      simp only [if_pos hdeg]
      rfl
    · intro d t ds ts hshape hstrides hdeg h0 hle
      refine header (.VArr a) s₂ _ hstor ?_
      show (if ndim = 0 ∨ sizes = [] ∨ strides = [] then
        (pure (.VArr (npEmpty dt)) : M Value) else _) s₂ = _
      simp only [if_neg hdeg]
      have hsl : npSliceFrom a (off - 1) =
          .ok ⟨a.dtype, a.base, a.start + (off - 1) * t, (d - (off - 1)) :: ds, a.strides⟩ := by
        simp only [npSliceFrom, hshape, hstrides]
        rw [if_neg (by omega), min_eq_left hle]
      show (M.lift (npSliceFrom a (off - 1)) >>= _) s₂ = _
      rw [hsl]
      rw [M.bind_ok _ _ _ _ _ (M.lift_ok _ s₂)]
      rfl

theorem c6_witness :
    read_tensor_generic .int32 {} (read_obj {} 1) { data := encInt 2 ++ (encLongs {} [2, 3] ++ (encLongs {} [3, 1] ++ (encLong {} 1 ++ (encInt 4 ++ (encInt 2 ++ (encInt 16 ++ ([0x74, 0x6F, 0x72, 0x63, 0x68, 0x2E, 0x49, 0x6E, 0x74, 0x53, 0x74, 0x6F, 0x72, 0x61, 0x67, 0x65] ++ (encLong {} 6 ++ (encInt 0 ++ encInt 1 ++ encInt 2 ++ encInt 3 ++ encInt 4 ++ encInt 5))))))))), pos := 0, objects := [] } =
      .ok (.VArr ⟨.int32, [0, 0, 0, 0, 1, 0, 0, 0, 2, 0, 0, 0, 3, 0, 0, 0, 4, 0, 0, 0, 5, 0, 0, 0], 0, [2, 3], [12, 4]⟩, { data := encInt 2 ++ (encLongs {} [2, 3] ++ (encLongs {} [3, 1] ++ (encLong {} 1 ++ (encInt 4 ++ (encInt 2 ++ (encInt 16 ++ ([0x74, 0x6F, 0x72, 0x63, 0x68, 0x2E, 0x49, 0x6E, 0x74, 0x53, 0x74, 0x6F, 0x72, 0x61, 0x67, 0x65] ++ (encLong {} 6 ++ (encInt 0 ++ encInt 1 ++ encInt 2 ++ encInt 3 ++ encInt 4 ++ encInt 5))))))))), pos := 104, objects := [(2, .VArr (⟨Dtype.int32, [0, 0, 0, 0, 1, 0, 0, 0, 2, 0, 0, 0, 3, 0, 0, 0, 4, 0, 0, 0, 5, 0, 0, 0], 0, [6], [4]⟩ : NpArray))] }) := by
  have h := ((c6_tensor_reconstruction .int32 {} 1 { data := encInt 2 ++ (encLongs {} [2, 3] ++ (encLongs {} [3, 1] ++ (encLong {} 1 ++ (encInt 4 ++ (encInt 2 ++ (encInt 16 ++ ([0x74, 0x6F, 0x72, 0x63, 0x68, 0x2E, 0x49, 0x6E, 0x74, 0x53, 0x74, 0x6F, 0x72, 0x61, 0x67, 0x65] ++ (encLong {} 6 ++ (encInt 0 ++ encInt 1 ++ encInt 2 ++ encInt 3 ++ encInt 4 ++ encInt 5))))))))), pos := 0, objects := [] }
    2 [2, 3] [3, 1] 1 (encInt 4 ++ (encInt 2 ++ (encInt 16 ++ ([0x74, 0x6F, 0x72, 0x63, 0x68, 0x2E, 0x49, 0x6E, 0x74, 0x53, 0x74, 0x6F, 0x72, 0x61, 0x67, 0x65] ++ (encLong {} 6 ++ (encInt 0 ++ encInt 1 ++ encInt 2 ++ encInt 3 ++ encInt 4 ++ encInt 5))))))
    (by decide) ⟨by decide, by decide⟩ (by decide) (by decide)
    (by intro x hx; fin_cases hx <;> exact ⟨by decide, by decide⟩)
    (by intro x hx; fin_cases hx <;> exact ⟨by decide, by decide⟩)
    ⟨by decide, by decide⟩ rfl).2 (⟨Dtype.int32, [0, 0, 0, 0, 1, 0, 0, 0, 2, 0, 0, 0, 3, 0, 0, 0, 4, 0, 0, 0, 5, 0, 0, 0], 0, [6], [4]⟩ : NpArray)
    { data := encInt 2 ++ (encLongs {} [2, 3] ++ (encLongs {} [3, 1] ++ (encLong {} 1 ++ (encInt 4 ++ (encInt 2 ++ (encInt 16 ++ ([0x74, 0x6F, 0x72, 0x63, 0x68, 0x2E, 0x49, 0x6E, 0x74, 0x53, 0x74, 0x6F, 0x72, 0x61, 0x67, 0x65] ++ (encLong {} 6 ++ (encInt 0 ++ encInt 1 ++ encInt 2 ++ encInt 3 ++ encInt 4 ++ encInt 5))))))))), pos := 104, objects := [(2, .VArr (⟨Dtype.int32, [0, 0, 0, 0, 1, 0, 0, 0, 2, 0, 0, 0, 3, 0, 0, 0, 4, 0, 0, 0, 5, 0, 0, 0], 0, [6], [4]⟩ : NpArray))] } rfl).2
    6 4 [] [] rfl rfl (by decide) (by decide) (by decide)
  rw [h]
  rfl

/-! The list-heuristic characterization: `n * (n + 1) = 2 * keySum` over
positive integer keys detects exactly the duplicate-free key multisets whose
set is `{1, ..., n}`. -/

theorem icc_int_insert (n : Nat) :
    Finset.Icc (1 : ℤ) ((n : ℤ) + 1) = insert ((n : ℤ) + 1) (Finset.Icc 1 (n : ℤ)) := by
  ext x
  simp only [Finset.mem_Icc, Finset.mem_insert]
  omega

theorem gauss_Icc (n : Nat) :
    2 * (∑ x in Finset.Icc (1 : ℤ) (n : ℤ), x) = (n : ℤ) * ((n : ℤ) + 1) := by
  induction n with
  | zero => simp
  | succ n ih =>
    push_cast
    rw [icc_int_insert n, Finset.sum_insert (by simp [Finset.mem_Icc])]
    push_cast at ih
    linear_combination ih

theorem sum_distinct_pos (n : Nat) : ∀ S : Finset ℤ, S.card = n → (∀ x ∈ S, 1 ≤ x) →
    ((n : ℤ) * ((n : ℤ) + 1) ≤ 2 * ∑ x in S, x) ∧
    (((n : ℤ) * ((n : ℤ) + 1) = 2 * ∑ x in S, x) ↔ S = Finset.Icc 1 (n : ℤ)) := by
  induction n with
  | zero =>
    intro S hc _
    rw [Finset.card_eq_zero.mp hc]
    constructor
    · simp
    · constructor
      · intro _
        rw [Finset.Icc_eq_empty (by norm_num)]
      · intro _
        simp
  | succ n ih =>
    intro S hc hp
    have hne : S.Nonempty := Finset.card_pos.mp (by omega)
    have hm : S.max' hne ∈ S := S.max'_mem hne
    have hmax : ∀ x ∈ S, x ≤ S.max' hne := fun x hx => S.le_max' x hx
    have hm1 : 1 ≤ S.max' hne := hp _ hm
    have hsub : S ⊆ Finset.Icc 1 (S.max' hne) :=
      fun x hx => Finset.mem_Icc.mpr ⟨hp x hx, hmax x hx⟩
    have hIcc_card : (((Finset.Icc (1 : ℤ) (S.max' hne)).card : ℕ) : ℤ) = S.max' hne := by
      rw [Int.card_Icc, show S.max' hne + 1 - 1 = S.max' hne by ring,
        Int.toNat_of_nonneg (by omega)]
    have hm_ge : (n : ℤ) + 1 ≤ S.max' hne := by
      have h1 := Finset.card_le_card hsub
      rw [hc] at h1
      have h2 : (((n + 1 : ℕ)) : ℤ) ≤ (((Finset.Icc (1 : ℤ) (S.max' hne)).card : ℕ) : ℤ) := by
        exact_mod_cast h1
      rw [hIcc_card] at h2
      push_cast at h2
      omega
    have hc' : (S.erase (S.max' hne)).card = n := by
      rw [Finset.card_erase_of_mem hm, hc]
      omega
    have hp' : ∀ x ∈ S.erase (S.max' hne), 1 ≤ x :=
      fun x hx => hp x (Finset.mem_of_mem_erase hx)
    have hsum : ∑ x in S.erase (S.max' hne), x = (∑ x in S, x) - S.max' hne :=
      Finset.sum_erase_eq_sub hm
    obtain ⟨hlb, hiff⟩ := ih (S.erase (S.max' hne)) hc' hp'
    rw [hsum] at hlb hiff
    constructor
    · push_cast
      nlinarith [hlb, hm_ge]
    · constructor
      · intro heq
        push_cast at heq
        have htight : 2 * ((∑ x in S, x) - S.max' hne) = (n : ℤ) * ((n : ℤ) + 1) ∧
            S.max' hne = (n : ℤ) + 1 := by
          constructor <;> nlinarith [hlb, hm_ge, heq]
        have hS' : S.erase (S.max' hne) = Finset.Icc 1 (n : ℤ) := by
          exact (ih (S.erase (S.max' hne)) hc' hp').2.mp (by rw [hsum]; exact htight.1.symm)
        have : S = insert (S.max' hne) (S.erase (S.max' hne)) :=
          (Finset.insert_erase hm).symm
        rw [this, hS', htight.2]
        push_cast
        exact (icc_int_insert n).symm
      · intro hS
        have h2 := gauss_Icc (n + 1)
        push_cast at h2 ⊢
        rw [hS]
        push_cast
        linarith [h2]

theorem sum_toFinset_le (zs : List ℤ) (h : ∀ z ∈ zs, 1 ≤ z) :
    ((∑ x in zs.toFinset, x) ≤ zs.sum) ∧
    (((∑ x in zs.toFinset, x) = zs.sum) ↔ zs.Nodup) := by
  induction zs with
  | nil => simp
  | cons z zs ih =>
    have hz : 1 ≤ z := h z (List.mem_cons_self z zs)
    obtain ⟨ihle, ihiff⟩ := ih (fun x hx => h x (List.mem_cons_of_mem z hx))
    by_cases hmem : z ∈ zs
    · have ht : (z :: zs).toFinset = zs.toFinset := by
        simp [List.toFinset_cons, Finset.insert_eq_self, hmem]
      rw [ht, List.sum_cons]
      constructor
      · linarith
      · constructor
        · intro he
          exfalso
          linarith
        · intro hnd
          exact absurd (List.nodup_cons.mp hnd).1 (by simp [hmem])
    · have ht : (z :: zs).toFinset = insert z zs.toFinset := by
        simp [List.toFinset_cons]
      rw [ht, Finset.sum_insert (by simpa using hmem), List.sum_cons]
      constructor
      · linarith
      · rw [List.nodup_cons]
        constructor
        · intro he
          exact ⟨hmem, ihiff.mp (by linarith)⟩
        · intro ⟨_, hnd⟩
          rw [ihiff.mpr hnd]

theorem heuristic_characterization (zs : List ℤ) (h : ∀ z ∈ zs, 1 ≤ z) :
    (((zs.toFinset.card : ℤ)) * ((zs.toFinset.card : ℤ) + 1) = 2 * zs.sum) ↔
    (zs.Nodup ∧ ∀ i : ℤ, i ∈ zs ↔ 1 ≤ i ∧ i ≤ (zs.length : ℤ)) := by
  obtain ⟨hle, hiff⟩ := sum_toFinset_le zs h
  obtain ⟨hlb, heqf⟩ := sum_distinct_pos zs.toFinset.card zs.toFinset rfl
    (fun x hx => h x (by simpa [List.mem_toFinset] using hx))
  constructor
  · intro he
    have h1 : (∑ x in zs.toFinset, x) = zs.sum := by nlinarith [hlb, hle, he]
    have hnd : zs.Nodup := hiff.mp h1
    have h2 : zs.toFinset = Finset.Icc 1 (zs.toFinset.card : ℤ) :=
      heqf.mp (by rw [he, h1])
    have hlen : zs.toFinset.card = zs.length := List.toFinset_card_of_nodup hnd
    refine ⟨hnd, fun i => ?_⟩
    rw [← List.mem_toFinset, h2, Finset.mem_Icc, hlen]
  · rintro ⟨hnd, hmem⟩
    have hlen : zs.toFinset.card = zs.length := List.toFinset_card_of_nodup hnd
    have h2 : zs.toFinset = Finset.Icc 1 (zs.toFinset.card : ℤ) := by
      ext i
      rw [List.mem_toFinset, Finset.mem_Icc, hlen, hmem i]
    have hsum := heqf.mpr h2
    rw [hsum, hiff.mpr hnd]

theorem numV_int (k : Value) (h : pyIsInt k = true) :
    numV k = some (.finite (pyIntVal k * (floatScale : Int))) := by
  cases k with
  | VInt n => simp [numV, pyIntVal]
  | VBool b => cases b <;> simp [numV, pyIntVal]
  | _ => simp [pyIsInt] at h

theorem pyEq_int_iff (k₀ k : Value) (h₀ : pyIsInt k₀ = true) (h : pyIsInt k = true) :
    pyEq k₀ k = true ↔ pyIntVal k₀ = pyIntVal k := by
  have hS : (0 : Int) < (floatScale : Int) := by
    have h1 : 0 < floatScale := Nat.pos_pow_of_pos 1074 (by norm_num)
    exact_mod_cast h1
  have hSne : floatScale ≠ 0 := by
    have h1 : 0 < floatScale := Nat.pos_pow_of_pos 1074 (by norm_num)
    omega
  have key : ∀ a b : Int, (a * (floatScale : Int) = b * (floatScale : Int)) ↔ a = b :=
    fun a b => mul_left_inj' (ne_of_gt hS)
  have key1 : ∀ a : Int, (a * (floatScale : Int) = (floatScale : Int)) ↔ a = 1 := by
    intro a
    have := key a 1
    rw [one_mul] at this
    exact this
  have key1' : ∀ a : Int, ((floatScale : Int) = a * (floatScale : Int)) ↔ 1 = a := by
    intro a
    rw [eq_comm, key1, eq_comm]
  have key0 : ∀ a : Int, (a * (floatScale : Int) = 0) ↔ a = 0 := by
    intro a
    rw [mul_eq_zero]
    simp [hSne]
  have key0' : ∀ a : Int, ((0 : Int) = a * (floatScale : Int)) ↔ 0 = a := by
    intro a
    rw [eq_comm, key0, eq_comm]
  cases k₀ with
  | VInt a =>
    cases k with
    | VInt b => simp [pyEq, numV, feq, pyIntVal, key]
    | VBool b =>
      cases b <;> simp [pyEq, numV, feq, pyIntVal, key0, key1]
    | VNil => simp [pyIsInt] at h
    | VFloat x => simp [pyIsInt] at h
    | VStr t => simp [pyIsInt] at h
    | VTable i es => simp [pyIsInt] at h
    | VList xs => simp [pyIsInt] at h
    | VObj i nm p => simp [pyIsInt] at h
    | VFunc sz d u => simp [pyIsInt] at h
    | VArr arr => simp [pyIsInt] at h
  | VBool a =>
    cases k with
    | VInt b =>
      cases a <;> simp [pyEq, numV, feq, pyIntVal, key0', key1']
    | VBool b =>
      cases a <;> cases b <;>
        (simp [pyEq, numV, feq, pyIntVal, key0', key1', hSne]
         all_goals omega)
    | VNil => simp [pyIsInt] at h
    | VFloat x => simp [pyIsInt] at h
    | VStr t => simp [pyIsInt] at h
    | VTable i es => simp [pyIsInt] at h
    | VList xs => simp [pyIsInt] at h
    | VObj i nm p => simp [pyIsInt] at h
    | VFunc sz d u => simp [pyIsInt] at h
    | VArr arr => simp [pyIsInt] at h
  | VNil => simp [pyIsInt] at h₀
  | VFloat x => simp [pyIsInt] at h₀
  | VStr t => simp [pyIsInt] at h₀
  | VTable i es => simp [pyIsInt] at h₀
  | VList xs => simp [pyIsInt] at h₀
  | VObj i nm p => simp [pyIsInt] at h₀
  | VFunc sz d u => simp [pyIsInt] at h₀
  | VArr arr => simp [pyIsInt] at h₀

theorem insertEntry_spec (k v : Value) (hk : pyIsInt k = true) :
    ∀ es : List (Value × Value), (∀ e ∈ es, pyIsInt e.1 = true) →
    (∀ e ∈ insertEntry es k v, pyIsInt e.1 = true) ∧
    ((insertEntry es k v).map entryKey =
      if pyIntVal k ∈ es.map entryKey then es.map entryKey
      else es.map entryKey ++ [pyIntVal k]) := by
  intro es
  induction es with
  | nil =>
    intro _
    refine ⟨?_, by simp [insertEntry, entryKey]⟩
    intro e he
    simp only [insertEntry, List.mem_singleton] at he
    rw [he]
    exact hk
  | cons e₀ rest ih =>
    obtain ⟨k₀, v₀⟩ := e₀
    intro hes
    have h₀ : pyIsInt k₀ = true := hes (k₀, v₀) (List.mem_cons_self _ rest)
    have hrest : ∀ e ∈ rest, pyIsInt e.1 = true :=
      fun e he => hes e (List.mem_cons_of_mem _ he)
    obtain ⟨ihint, ihmap⟩ := ih hrest
    simp only [insertEntry]
    by_cases hpe : pyEq k₀ k = true
    · have hkey : pyIntVal k₀ = pyIntVal k := (pyEq_int_iff k₀ k h₀ hk).mp hpe
      rw [if_pos hpe]
      constructor
      · intro e he
        rcases List.mem_cons.mp he with rfl | he2
        · exact h₀
        · exact hrest e he2
      · rw [if_pos (by simp only [List.map_cons, List.mem_cons]; left; simp [entryKey, hkey])]
        simp [entryKey]
    · have hkey : pyIntVal k₀ ≠ pyIntVal k :=
        fun hc => hpe ((pyEq_int_iff k₀ k h₀ hk).mpr hc)
      rw [if_neg hpe]
      constructor
      · intro e he
        rcases List.mem_cons.mp he with rfl | he2
        · exact h₀
        · exact ihint e he2
      · simp only [List.map_cons]
        rw [ihmap]
        have hmm : ¬ pyIntVal k = entryKey (k₀, v₀) := by
          simpa [entryKey] using fun hc => hkey hc.symm
        by_cases hmem : pyIntVal k ∈ rest.map entryKey
        · rw [if_pos hmem, if_pos (by simp only [List.mem_cons]; exact Or.inr hmem)]
        · have hno : ¬ pyIntVal k ∈ entryKey (k₀, v₀) :: rest.map entryKey := by
            simp only [List.mem_cons]
            rintro (hc | hc)
            · exact hmm hc
            · exact hmem hc
          rw [if_neg hmem, if_neg hno]
          simp

theorem insertAll_spec :
    ∀ (kvs : List (Value × Value)) (es : List (Value × Value)),
    (∀ kv ∈ kvs, pyIsInt kv.1 = true) → (∀ e ∈ es, pyIsInt e.1 = true) →
    ((es.map entryKey).Nodup) →
    (∀ e ∈ insertAll es kvs, pyIsInt e.1 = true) ∧
    ((insertAll es kvs).map entryKey).Nodup ∧
    (∀ i : Int, i ∈ (insertAll es kvs).map entryKey ↔
      i ∈ es.map entryKey ∨ i ∈ kvs.map (fun kv => pyIntVal kv.1)) := by
  intro kvs
  induction kvs with
  | nil =>
    intro es hkvs hes hnd
    exact ⟨hes, hnd, fun i => by simp [insertAll]⟩
  | cons kv rest ih =>
    obtain ⟨k, v⟩ := kv
    intro es hkvs hes hnd
    have hk : pyIsInt k = true := hkvs (k, v) (List.mem_cons_self _ rest)
    have hrest : ∀ kv ∈ rest, pyIsInt kv.1 = true :=
      fun e he => hkvs e (List.mem_cons_of_mem _ he)
    obtain ⟨hint, hmap⟩ := insertEntry_spec k v hk es hes
    have hstep : insertAll es ((k, v) :: rest) = insertAll (insertEntry es k v) rest := rfl
    have hnd' : ((insertEntry es k v).map entryKey).Nodup := by
      rw [hmap]
      by_cases hmem : pyIntVal k ∈ es.map entryKey
      · rw [if_pos hmem]
        exact hnd
      · rw [if_neg hmem]
        simp [List.nodup_append, hnd, hmem]
    obtain ⟨rint, rnd, rmem⟩ := ih (insertEntry es k v) hrest hint hnd'
    rw [hstep]
    refine ⟨rint, rnd, fun i => ?_⟩
    rw [rmem i, hmap]
    by_cases hmem : pyIntVal k ∈ es.map entryKey
    · rw [if_pos hmem]
      simp only [List.map_cons, List.mem_cons]
      constructor
      · exact fun hh => hh.elim (fun a => Or.inl a) (fun a => Or.inr (Or.inr a))
      · rintro (hh | hh | hh)
        · exact Or.inl hh
        · rw [hh]
          exact Or.inl hmem
        · exact Or.inr hh

    · rw [if_neg hmem]
      simp only [List.map_cons, List.mem_cons, List.mem_append, List.mem_singleton,
        List.not_mem_nil, or_false]
      tauto

theorem M.bind_ok_inv (x : M α) (f : α → M β) (s : RState) (r : β × RState)
    (h : (x >>= f) s = .ok r) :
    ∃ a s', x s = .ok (a, s') ∧ f a s' = .ok r := by
  have h' : M.bind x f s = .ok r := h
  unfold M.bind at h'
  cases hx : x s with
  | ok p =>
    obtain ⟨a, s'⟩ := p
    rw [hx] at h'
    exact ⟨a, s', rfl, h'⟩
  | error e =>
    rw [hx] at h'
    exact Except.noConfusion h'

theorem M.lift_ok_inv (e : Except PyErr α) (s : RState) (a : α) (s' : RState)
    (h : M.lift e s = .ok (a, s')) : e = .ok a ∧ s' = s := by
  unfold M.lift at h
  cases e with
  | ok b => simp_all
  | error err => simp at h

theorem dictInsert_ok_inv (es : List (Value × Value)) (k v : Value)
    (r : List (Value × Value)) (h : dictInsert es k v = .ok r) :
    r = insertEntry es k v := by
  unfold dictInsert at h
  by_cases hh : keyUnhashable k = true
  · rw [if_pos hh] at h
    simp at h
  · rw [if_neg hh] at h
    simp at h
    exact h.symm

/-- Trace of the table pair loop: a successful run of `readPairsAux` reads a
list of key/value pairs with the recursive reader, folds them into the dict,
sums `keyContrib` of each key into `key_sum` (when the list heuristic is on)
and conjoins `natKey` of each key into `keys_natural`.  The lemma is
parametric in an invariant `Inv` preserved by the reader and a predicate `P`
of everything it returns. -/
theorem readPairsAux_spec (cfg : Config) (readV : M Value)
    (Inv : RState → Prop) (P : Value → Prop)
    (hreadV : ∀ s v s', Inv s → readV s = .ok (v, s') → P v ∧ Inv s') :
    ∀ (m : Nat) (es₀ : List (Value × Value)) (k₀ : Int) (b₀ : Bool) (s : RState)
      (es : List (Value × Value)) (ksum : Int) (knat : Bool) (s' : RState),
      Inv s →
      readPairsAux cfg readV m es₀ k₀ b₀ s = .ok ((es, ksum, knat), s') →
      Inv s' ∧ ∃ kvs : List (Value × Value), kvs.length = m ∧
        es = insertAll es₀ kvs ∧
        (∀ kv ∈ kvs, P kv.1 ∧ P kv.2) ∧
        (cfg.use_list_heuristic = true →
          ksum = k₀ + (kvs.map (fun kv => keyContrib kv.1)).sum ∧
          knat = (b₀ && kvs.all (fun kv => natKey kv.1))) ∧
        (cfg.use_list_heuristic = false → ksum = k₀ ∧ knat = b₀) := by
  intro m
  induction m with
  | zero =>
    intro es₀ k₀ b₀ s es ksum knat s' hInv hrun
    have h' : (Except.ok ((es₀, k₀, b₀), s) : Except PyErr _) = .ok ((es, ksum, knat), s') := hrun
    simp only [Except.ok.injEq, Prod.mk.injEq] at h'
    obtain ⟨⟨he, hk, hb⟩, hs⟩ := h'
    subst he hk hb hs
    refine ⟨hInv, [], rfl, rfl, by simp, fun _ => ⟨by simp, by simp⟩, fun _ => ⟨rfl, rfl⟩⟩
  | succ m ih =>
    intro es₀ k₀ b₀ s es ksum knat s' hInv hrun
    obtain ⟨k, s₁, hk, hrun1⟩ := M.bind_ok_inv _ _ _ _ hrun
    obtain ⟨hPk, hInv1⟩ := hreadV s k s₁ hInv hk
    obtain ⟨v, s₂, hv, hrun2⟩ := M.bind_ok_inv _ _ _ _ hrun1
    obtain ⟨hPv, hInv2⟩ := hreadV s₁ v s₂ hInv1 hv
    obtain ⟨es', s₃, hes', hrun3⟩ := M.bind_ok_inv _ _ _ _ hrun2
    obtain ⟨hd, hs₃⟩ := M.lift_ok_inv _ _ _ _ hes'
    have hes'' : es' = insertEntry es₀ k v := dictInsert_ok_inv _ _ _ _ hd
    rw [hs₃] at hrun3
    rw [hes''] at hrun3
    by_cases hl : cfg.use_list_heuristic = true
    · rw [if_pos hl] at hrun3
      by_cases hnat : (¬ pyIsInt k = true ∨ pyIntVal k ≤ 0)
      · rw [if_pos hnat] at hrun3
        obtain ⟨hInv', kvs, hlen, hesf, hP, hsum, hsum0⟩ :=
          ih (insertEntry es₀ k v) k₀ false s₂ es ksum knat s' hInv2 hrun3
        refine ⟨hInv', (k, v) :: kvs, by simp [hlen], hesf, ?_, ?_, ?_⟩
        · intro kv hkv
          rcases List.mem_cons.mp hkv with rfl | h2
          · exact ⟨hPk, hPv⟩
          · exact hP kv h2
        · intro hl2
          obtain ⟨hs1, hs2⟩ := hsum hl2
          have hck : keyContrib k = 0 := by
            unfold keyContrib
            rw [if_neg (by
              rintro ⟨ha, hb⟩
              rcases hnat with hc | hc
              · exact hc ha
              · omega)]
          have hnk : natKey k = false := by
            unfold natKey
            rcases hnat with hc | hc
            · cases hpi : pyIsInt k
              · simp
              · exact absurd hpi hc
            · have hdec : decide (0 < pyIntVal k) = false := by
                simp only [decide_eq_false_iff_not, not_lt]
                omega
              rw [hdec, Bool.and_false]
          constructor
          · rw [hs1]
            simp [hck]
          · rw [hs2]
            simp [List.all_cons, hnk]
        · intro hl2
          rw [hl2] at hl
          simp at hl
      · rw [if_neg hnat] at hrun3
        push_neg at hnat
        obtain ⟨hisInt, hpos⟩ := hnat
        obtain ⟨hInv', kvs, hlen, hesf, hP, hsum, hsum0⟩ :=
          ih (insertEntry es₀ k v) (k₀ + pyIntVal k) b₀ s₂ es ksum knat s' hInv2 hrun3
        refine ⟨hInv', (k, v) :: kvs, by simp [hlen], hesf, ?_, ?_, ?_⟩
        · intro kv hkv
          rcases List.mem_cons.mp hkv with rfl | h2
          · exact ⟨hPk, hPv⟩
          · exact hP kv h2
        · intro hl2
          obtain ⟨hs1, hs2⟩ := hsum hl2
          have hck : keyContrib k = pyIntVal k := by
            unfold keyContrib
            rw [if_pos ⟨hisInt, by omega⟩]
          have hnk : natKey k = true := by
            unfold natKey
            simp [hisInt]
            omega
          constructor
          · simp only [List.map_cons, List.sum_cons]
            rw [hs1, hck]
            ring
          · rw [hs2]
            simp [List.all_cons, hnk]
        · intro hl2
          rw [hl2] at hl
          simp at hl
    · have hl' : cfg.use_list_heuristic = false := by
        cases hcfg : cfg.use_list_heuristic
        · rfl
        · exact absurd hcfg hl
      rw [if_neg hl] at hrun3
      obtain ⟨hInv', kvs, hlen, hesf, hP, hsum, hsum0⟩ :=
        ih (insertEntry es₀ k v) k₀ b₀ s₂ es ksum knat s' hInv2 hrun3
      refine ⟨hInv', (k, v) :: kvs, by simp [hlen], hesf, ?_, ?_, ?_⟩
      · intro kv hkv
        rcases List.mem_cons.mp hkv with rfl | h2
        · exact ⟨hPk, hPv⟩
        · exact hP kv h2
      · intro hl2
        exact absurd hl2 hl
      · intro hl2
        exact hsum0 hl2

theorem M.pure_ok_inv (a : α) (s : RState) (b : α) (s' : RState)
    (h : (pure a : M α) s = .ok (b, s')) : b = a ∧ s' = s := by
  have h' : (Except.ok (a, s) : Except PyErr (α × RState)) = .ok (b, s') := h
  simp only [Except.ok.injEq, Prod.mk.injEq] at h'
  exact ⟨h'.1.symm, h'.2.symm⟩

theorem buildList_length (es : List (Value × Value)) :
    ∀ (n : Nat) (xs : List Value), buildList es n = .ok xs → xs.length = n := by
  intro n
  induction n with
  | zero =>
    intro xs h
    have h' : (Except.ok [] : Except PyErr (List Value)) = .ok xs := h
    simp only [Except.ok.injEq] at h'
    rw [← h']
    rfl
  | succ n ih =>
    intro xs h
    unfold buildList at h
    cases hb : buildList es n with
    | ok ys =>
      rw [hb] at h
      cases hg : dictGetInt es ((n : Int) + 1) with
      | ok w =>
        rw [hg] at h
        have h' : (Except.ok (ys ++ [w]) : Except PyErr (List Value)) = .ok xs := h
        simp only [Except.ok.injEq] at h'
        rw [← h']
        simp [ih ys hb]
      | error e =>
        rw [hg] at h
        exact Except.noConfusion h
    | error e =>
      rw [hb] at h
      exact Except.noConfusion h

/-- Inversion of the table branch of `read_obj`: a successful read of a
fresh-index table runs the pair loop and then either converts to a list
(heuristic on and the `keys_natural` / key-sum test passed) or keeps the
associative table. -/
theorem read_obj_table_run (cfg : Config) (fuel : Nat) (s : RState) (idx size : Int)
    (v : Value) (s' : RState) (rest : List Nat)
    (hr : intRange idx) (hrs : intRange size)
    (h : s.data.drop s.pos = encInt 3 ++ (encInt idx ++ (encInt size ++ rest)))
    (hnone : lookupObj s.objects idx = none)
    (hrun : read_obj cfg (fuel + 1) s = .ok (v, s')) :
    ∃ (es : List (Value × Value)) (ksum : Int) (knat : Bool) (s₁ : RState),
      readPairsAux cfg (read_obj cfg fuel) size.toNat [] 0 true
        { s with pos := s.pos + 4 + 4 + 4 } = .ok ((es, ksum, knat), s₁) ∧
      ((cfg.use_list_heuristic = true ∧ knat = true ∧
          (es.length : Int) * ((es.length : Int) + 1) = 2 * ksum ∧
          ∃ lst, buildList es es.length = .ok lst ∧ v = .VList lst) ∨
        ((cfg.use_list_heuristic = false ∨
          ¬(knat = true ∧ (es.length : Int) * ((es.length : Int) + 1) = 2 * ksum)) ∧
          v = .VTable idx es)) := by
  have hlen : ∀ z : Int, (encInt z).length = 4 := fun z => encSigned_length 4 z
  have h4 := drop_add s.data s.pos 4 _ _ h (hlen 3)
  have h8 := drop_add s.data (s.pos + 4) 4 _ _ h4 (hlen idx)
  simp only [read_obj] at hrun
  rw [M.bind_ok _ _ _ _ _ (read_int_ok s 3 _ h ⟨by decide, by decide⟩)] at hrun
  replace hrun : (read_int >>= _) { s with pos := s.pos + 4 } = .ok (v, s') := hrun
  rw [M.bind_ok _ _ _ _ _ (read_int_ok { s with pos := s.pos + 4 } idx _ h4 hr)] at hrun
  rw [M.bind_ok _ _ _ _ _ (M.get_run _)] at hrun
  simp only [hnone] at hrun
  replace hrun : (read_int >>= _) { s with pos := s.pos + 4 + 4 } = .ok (v, s') := hrun
  rw [M.bind_ok _ _ _ _ _
    (read_int_ok { s with pos := s.pos + 4 + 4 } size _ h8 hrs)] at hrun
  obtain ⟨r, s₁, hpairs, hcont⟩ := M.bind_ok_inv _ _ _ _ hrun
  obtain ⟨es, ksum, knat⟩ := r
  refine ⟨es, ksum, knat, s₁, hpairs, ?_⟩
  simp only at hcont
  by_cases hl : cfg.use_list_heuristic = true
  · rw [if_pos hl] at hcont
    by_cases htest : (knat = true ∧ (es.length : Int) * ((es.length : Int) + 1) = 2 * ksum)
    · rw [if_pos htest] at hcont
      obtain ⟨lst, s₂, hlift, hcont2⟩ := M.bind_ok_inv _ _ _ _ hcont
      obtain ⟨hbl, hs₂⟩ := M.lift_ok_inv _ _ _ _ hlift
      obtain ⟨obj, s₃, hobj, hcont3⟩ := M.bind_ok_inv _ _ _ _ hcont2
      obtain ⟨hobj_eq, hs₃⟩ := M.pure_ok_inv _ _ _ _ hobj
      rw [M.bind_ok _ _ _ _ _ (registerObj_run idx obj s₃)] at hcont3
      obtain ⟨hv, _⟩ := M.pure_ok_inv _ _ _ _ hcont3
      exact Or.inl ⟨hl, htest.1, htest.2, lst, hbl, by rw [hv, hobj_eq]⟩
    · rw [if_neg htest] at hcont
      obtain ⟨obj, s₂, hobj, hcont2⟩ := M.bind_ok_inv _ _ _ _ hcont
      obtain ⟨hobj_eq, hs₂⟩ := M.pure_ok_inv _ _ _ _ hobj
      rw [M.bind_ok _ _ _ _ _ (registerObj_run idx obj s₂)] at hcont2
      obtain ⟨hv, _⟩ := M.pure_ok_inv _ _ _ _ hcont2
      exact Or.inr ⟨Or.inr htest, by rw [hv, hobj_eq]⟩
  · have hl' : cfg.use_list_heuristic = false := by
      cases hcfg : cfg.use_list_heuristic
      · rfl
      · exact absurd hcfg hl
    rw [if_neg hl] at hcont
    obtain ⟨obj, s₂, hobj, hcont2⟩ := M.bind_ok_inv _ _ _ _ hcont
    obtain ⟨hobj_eq, hs₂⟩ := M.pure_ok_inv _ _ _ _ hobj
    rw [M.bind_ok _ _ _ _ _ (registerObj_run idx obj s₂)] at hcont2
    obtain ⟨hv, _⟩ := M.pure_ok_inv _ _ _ _ hcont2
    exact Or.inr ⟨Or.inl hl', by rw [hv, hobj_eq]⟩

/-- Claim C3, amended: with the list heuristic enabled, a successfully read
table converts to a 0-indexed list iff every key read in the pair loop is a
positive Python int, no key occurs twice in the stream, and the keys are
exactly 1..n for n the number of pairs read.  The code's test compares
`n*(n+1)` for `n = len(obj)` (distinct keys after dict collapse) with
`2*key_sum` where `key_sum` counts stream keys WITH multiplicity, so a
duplicated key makes the test fail even when the distinct key set is exactly
1..len(obj); the claim's distinct-key-set reading holds only for
duplicate-free streams. -/
theorem c3_list_heuristic (cfg : Config) (fuel : Nat) (s : RState) (idx size : Int)
    (v : Value) (sf : RState) (rest : List Nat)
    (hl : cfg.use_list_heuristic = true)
    (hr : intRange idx) (hrs : intRange size)
    (h : s.data.drop s.pos = encInt 3 ++ (encInt idx ++ (encInt size ++ rest)))
    (hnone : lookupObj s.objects idx = none)
    (hrun : read_obj cfg (fuel + 1) s = .ok (v, sf)) :
    ∃ (kvs : List (Value × Value)) (s₁ : RState),
      readPairsAux cfg (read_obj cfg fuel) size.toNat [] 0 true
        { s with pos := s.pos + 4 + 4 + 4 } =
        .ok ((insertAll [] kvs, (kvs.map (fun kv => keyContrib kv.1)).sum,
          kvs.all (fun kv => natKey kv.1)), s₁) ∧
      ((∃ lst, v = Value.VList lst) ↔
        (∀ kv ∈ kvs, natKey kv.1 = true) ∧
        (kvs.map (fun kv => pyIntVal kv.1)).Nodup ∧
        (∀ i : Int, i ∈ kvs.map (fun kv => pyIntVal kv.1) ↔
          1 ≤ i ∧ i ≤ (kvs.length : Int))) := by
  obtain ⟨es, ksum, knat, s₁, hpairs, hcase⟩ :=
    read_obj_table_run cfg fuel s idx size v sf rest hr hrs h hnone hrun
  obtain ⟨-, kvs, hklen, hes, -, hsums, -⟩ :=
    readPairsAux_spec cfg (read_obj cfg fuel) (fun _ => True) (fun _ => True)
      (fun _ _ _ _ _ => ⟨trivial, trivial⟩) size.toNat [] 0 true
      { s with pos := s.pos + 4 + 4 + 4 } es ksum knat s₁ trivial hpairs
  obtain ⟨hksum, hknat⟩ := hsums hl
  rw [zero_add] at hksum
  rw [Bool.true_and] at hknat
  rw [hes, hksum, hknat] at hpairs
  refine ⟨kvs, s₁, hpairs, ?_⟩
  have hfacts : (∀ kv ∈ kvs, natKey kv.1 = true) →
      (es.length = (kvs.map (fun kv => pyIntVal kv.1)).toFinset.card ∧
       ksum = (kvs.map (fun kv => pyIntVal kv.1)).sum ∧
       ∀ z ∈ kvs.map (fun kv => pyIntVal kv.1), 1 ≤ z) := by
    intro hall
    have hint : ∀ kv ∈ kvs, pyIsInt kv.1 = true := by
      intro kv hkv
      have hx := hall kv hkv
      simp only [natKey, Bool.and_eq_true, decide_eq_true_eq] at hx
      exact hx.1
    have hpos : ∀ kv ∈ kvs, 0 < pyIntVal kv.1 := by
      intro kv hkv
      have hx := hall kv hkv
      simp only [natKey, Bool.and_eq_true, decide_eq_true_eq] at hx
      exact hx.2
    refine ⟨?_, ?_, ?_⟩
    · obtain ⟨hint2, hnd2, hmem2⟩ := insertAll_spec kvs [] hint
        (by intro e he; exact absurd he (List.not_mem_nil e)) (by simp)
      have hTF : ((insertAll [] kvs).map entryKey).toFinset =
          (kvs.map (fun kv => pyIntVal kv.1)).toFinset := by
        ext i
        simp only [List.mem_toFinset]
        rw [hmem2 i]
        simp
      calc es.length = ((insertAll [] kvs).map entryKey).length := by
            rw [hes, List.length_map]
        _ = ((insertAll [] kvs).map entryKey).toFinset.card :=
            (List.toFinset_card_of_nodup hnd2).symm
        _ = (kvs.map (fun kv => pyIntVal kv.1)).toFinset.card := by rw [hTF]
    · rw [hksum]
      congr 1
      apply List.map_congr_left
      intro kv hkv
      unfold keyContrib
      rw [if_pos ⟨hint kv hkv, hpos kv hkv⟩]
    · intro z hz
      obtain ⟨kv, hkv, hzeq⟩ := List.mem_map.mp hz
      rw [← hzeq]
      exact hpos kv hkv
  constructor
  · rintro ⟨lst, hlst⟩
    rcases hcase with ⟨-, hknat2, htest, lst2, -, -⟩ | ⟨-, hv2⟩
    · have hallb : kvs.all (fun kv => natKey kv.1) = true := by rw [← hknat, hknat2]
      have hall : ∀ kv ∈ kvs, natKey kv.1 = true := by
        simp only [List.all_eq_true] at hallb
        exact hallb
      obtain ⟨hlen, hsum, hge⟩ := hfacts hall
      rw [hlen, hsum] at htest
      obtain ⟨hnd, hmem⟩ :=
        (heuristic_characterization (kvs.map (fun kv => pyIntVal kv.1)) hge).mp htest
      refine ⟨hall, hnd, fun i => ?_⟩
      rw [hmem i, List.length_map]
    · rw [hv2] at hlst
      exact Value.noConfusion hlst
  · rintro ⟨hall, hnd, hmem⟩
    rcases hcase with ⟨-, -, -, lst2, -, hveq⟩ | ⟨hcond, -⟩
    · exact ⟨lst2, hveq⟩
    · exfalso
      rcases hcond with hc | hc
      · rw [hl] at hc
        exact Bool.noConfusion hc
      · obtain ⟨hlen, hsum, hge⟩ := hfacts hall
        refine hc ⟨by rw [hknat]; exact List.all_eq_true.mpr hall, ?_⟩
        rw [hlen, hsum]
        refine (heuristic_characterization (kvs.map (fun kv => pyIntVal kv.1)) hge).mpr
          ⟨hnd, fun i => ?_⟩
        rw [List.length_map]
        exact hmem i

set_option maxRecDepth 40000 in
theorem c3_witness :
    ∃ (kvs : List (Value × Value)) (s₁ : RState),
      readPairsAux {} (read_obj {} 1) (Int.toNat 1) [] 0 true
        { data := encInt 3 ++ (encInt 1 ++ (encInt 1 ++ (encInt 1 ++
            ([0, 0, 0, 0, 0, 0, 0xF0, 0x3F] ++ encInt 0)))),
          pos := 0 + 4 + 4 + 4, objects := [] } =
        .ok ((insertAll [] kvs, (kvs.map (fun kv => keyContrib kv.1)).sum,
          kvs.all (fun kv => natKey kv.1)), s₁) ∧
      ((∃ lst, Value.VList [Value.VNil] = Value.VList lst) ↔
        (∀ kv ∈ kvs, natKey kv.1 = true) ∧
        (kvs.map (fun kv => pyIntVal kv.1)).Nodup ∧
        (∀ i : Int, i ∈ kvs.map (fun kv => pyIntVal kv.1) ↔
          1 ≤ i ∧ i ≤ (kvs.length : Int))) :=
  c3_list_heuristic {} 1
    { data := encInt 3 ++ (encInt 1 ++ (encInt 1 ++ (encInt 1 ++
        ([0, 0, 0, 0, 0, 0, 0xF0, 0x3F] ++ encInt 0)))),
      pos := 0, objects := [] }
    1 1 (Value.VList [Value.VNil])
    { data := encInt 3 ++ (encInt 1 ++ (encInt 1 ++ (encInt 1 ++
        ([0, 0, 0, 0, 0, 0, 0xF0, 0x3F] ++ encInt 0)))),
      pos := 28, objects := [(1, Value.VList [Value.VNil])] }
    (encInt 1 ++ ([0, 0, 0, 0, 0, 0, 0xF0, 0x3F] ++ encInt 0))
    rfl ⟨by decide, by decide⟩ ⟨by decide, by decide⟩ rfl rfl (by rfl)

set_option maxRecDepth 40000 in
/-- Claim C3, counterexample to the claim as stated: a table stream that
repeats the key 1 — pairs (1, nil) then (1, true) — has every key a positive
integer and distinct key set exactly 1..n for n = 1 distinct key, yet the
default-configuration reader leaves it an associative `VTable`: `key_sum`
counts the duplicated key twice, so the code's conversion test `1*2 == 2*2`
fails. -/
theorem c3_counterexample :
    read_obj {} 2
      { data := encInt 3 ++ (encInt 1 ++ (encInt 2 ++ (encInt 1 ++
          ([0, 0, 0, 0, 0, 0, 0xF0, 0x3F] ++ (encInt 0 ++ (encInt 1 ++
          ([0, 0, 0, 0, 0, 0, 0xF0, 0x3F] ++ (encInt 5 ++ encInt 1)))))))),
        pos := 0, objects := [] } =
      .ok (Value.VTable 1 [(Value.VInt 1, Value.VBool true)],
        { data := encInt 3 ++ (encInt 1 ++ (encInt 2 ++ (encInt 1 ++
            ([0, 0, 0, 0, 0, 0, 0xF0, 0x3F] ++ (encInt 0 ++ (encInt 1 ++
            ([0, 0, 0, 0, 0, 0, 0xF0, 0x3F] ++ (encInt 5 ++ encInt 1)))))))),
          pos := 48, objects := [(1, Value.VTable 1 [(Value.VInt 1, Value.VBool true)])] }) ∧
    (∀ e ∈ [(Value.VInt 1, Value.VBool true)], natKey e.1 = true) ∧
    (∀ i : Int, i ∈ [(Value.VInt 1, Value.VBool true)].map entryKey ↔
      1 ≤ i ∧ i ≤ ([(Value.VInt 1, Value.VBool true)].length : Int)) ∧
    ¬ ∃ lst, Value.VTable 1 [(Value.VInt 1, Value.VBool true)] = Value.VList lst := by
  refine ⟨by rfl, by decide, ?_, ?_⟩
  · show ∀ i : Int, i ∈ [(1 : Int)] ↔ 1 ≤ i ∧ i ≤ (1 : Int)
    intro i
    simp only [List.mem_singleton]
    omega
  · rintro ⟨lst, hc⟩
    exact Value.noConfusion hc

theorem M.get_ok_inv (s a s₁ : RState) (h : M.get s = .ok (a, s₁)) :
    a = s ∧ s₁ = s := by
  simp only [M.get, Except.ok.injEq, Prod.mk.injEq] at h
  exact ⟨h.1.symm, h.2.symm⟩

theorem t7read_objects (w : Nat) (s : RState) (a : List Nat) (s₁ : RState)
    (h : t7read w s = .ok (a, s₁)) : s₁.objects = s.objects := by
  unfold t7read at h
  by_cases hle : s.pos + w ≤ s.data.length
  · rw [if_pos hle] at h
    simp only [Except.ok.injEq, Prod.mk.injEq] at h
    rw [← h.2]
  · rw [if_neg hle] at h
    exact Except.noConfusion h

theorem fread_objects (n : Int) (s : RState) (a : List Nat) (s₁ : RState)
    (h : fread n s = .ok (a, s₁)) : s₁.objects = s.objects := by
  simp only [fread, Except.ok.injEq, Prod.mk.injEq] at h
  rw [← h.2]

theorem read_int_objects (s : RState) (a : Int) (s₁ : RState)
    (h : read_int s = .ok (a, s₁)) : s₁.objects = s.objects := by
  simp only [read_int] at h
  obtain ⟨bs, s', hb, hp⟩ := M.bind_ok_inv _ _ _ _ h
  obtain ⟨-, hs⟩ := M.pure_ok_inv _ _ _ _ hp
  rw [hs]
  exact t7read_objects 4 s bs s' hb

theorem read_double_objects (s : RState) (a : FloatVal) (s₁ : RState)
    (h : read_double s = .ok (a, s₁)) : s₁.objects = s.objects := by
  simp only [read_double] at h
  obtain ⟨bs, s', hb, hp⟩ := M.bind_ok_inv _ _ _ _ h
  obtain ⟨-, hs⟩ := M.pure_ok_inv _ _ _ _ hp
  rw [hs]
  exact t7read_objects 8 s bs s' hb

theorem read_boolean_objects (s : RState) (a : Bool) (s₁ : RState)
    (h : read_boolean s = .ok (a, s₁)) : s₁.objects = s.objects := by
  simp only [read_boolean] at h
  obtain ⟨i, s', hb, hp⟩ := M.bind_ok_inv _ _ _ _ h
  obtain ⟨-, hs⟩ := M.pure_ok_inv _ _ _ _ hp
  rw [hs]
  exact read_int_objects s i s' hb

theorem read_long_objects (cfg : Config) (s : RState) (a : Int) (s₁ : RState)
    (h : read_long cfg s = .ok (a, s₁)) : s₁.objects = s.objects := by
  unfold read_long at h
  by_cases hf : cfg.force_8bytes_long = true
  · rw [if_pos hf] at h
    obtain ⟨bs, s', hb, hp⟩ := M.bind_ok_inv _ _ _ _ h
    obtain ⟨-, hs⟩ := M.pure_ok_inv _ _ _ _ hp
    rw [hs]
    exact t7read_objects 8 s bs s' hb
  · rw [if_neg hf] at h
    obtain ⟨bs, s', hb, hp⟩ := M.bind_ok_inv _ _ _ _ h
    obtain ⟨-, hs⟩ := M.pure_ok_inv _ _ _ _ hp
    rw [hs]
    exact t7read_objects cfg.long_width s bs s' hb

theorem read_long_array_loop_objects (cfg : Config) :
    ∀ (m : Nat) (acc : List Int) (s : RState) (a : List Int) (s₁ : RState),
      read_long_array.loop cfg m acc s = .ok (a, s₁) → s₁.objects = s.objects := by
  intro m
  induction m with
  | zero =>
    intro acc s a s₁ h
    obtain ⟨-, hs⟩ := M.pure_ok_inv _ _ _ _ h
    rw [hs]
  | succ m ih =>
    intro acc s a s₁ h
    have h2 : (read_long cfg >>= fun x => read_long_array.loop cfg m (x :: acc)) s =
        .ok (a, s₁) := h
    obtain ⟨x, s', hx, hl⟩ := M.bind_ok_inv _ _ _ _ h2
    rw [ih (x :: acc) s' a s₁ hl, read_long_objects cfg s x s' hx]

theorem read_long_array_objects (cfg : Config) (n : Int) (s : RState)
    (a : List Int) (s₁ : RState)
    (h : read_long_array cfg n s = .ok (a, s₁)) : s₁.objects = s.objects := by
  unfold read_long_array at h
  by_cases hf : cfg.force_8bytes_long = true
  · rw [if_pos hf] at h
    exact read_long_array_loop_objects cfg n.toNat [] s a s₁ h
  · rw [if_neg hf] at h
    by_cases hn : n < 0
    · rw [if_pos hn] at h
      exact Except.noConfusion h
    · rw [if_neg hn] at h
      by_cases hle : s.pos + n.toNat * cfg.long_width ≤ s.data.length
      · rw [if_pos hle] at h
        simp only [Except.ok.injEq, Prod.mk.injEq] at h
        rw [← h.2]
      · rw [if_neg hle] at h
        exact Except.noConfusion h

theorem read_string_objects (s : RState) (a : String) (s₁ : RState)
    (h : read_string s = .ok (a, s₁)) : s₁.objects = s.objects := by
  simp only [read_string] at h
  obtain ⟨size, s', hsz, h1⟩ := M.bind_ok_inv _ _ _ _ h
  obtain ⟨bs, s'', hbs, h2⟩ := M.bind_ok_inv _ _ _ _ h1
  cases hu : utf8Decode bs with
  | some t =>
    rw [hu] at h2
    obtain ⟨-, hs⟩ := M.pure_ok_inv _ _ _ _ h2
    rw [hs, fread_objects size s' bs s'' hbs, read_int_objects s size s' hsz]
  | none =>
    rw [hu] at h2
    exact Except.noConfusion h2

theorem objUpdate_no_int (os : List (Int × Value)) (i : Int) (v : Value)
    (hos : objectsNoInt os) (hv : isVIntV v = false) :
    objectsNoInt (objUpdate os i v) := by
  unfold objUpdate
  by_cases hc : os.any (fun e => e.1 = i) = true
  · rw [if_pos hc]
    intro e he
    obtain ⟨e₀, he₀, heq⟩ := List.mem_map.mp he
    by_cases h0 : e₀.1 = i
    · rw [if_pos h0] at heq
      rw [← heq]
      exact hv
    · rw [if_neg h0] at heq
      rw [← heq]
      exact hos e₀ he₀
  · rw [if_neg hc]
    intro e he
    rcases List.mem_append.mp he with h1 | h1
    · exact hos e h1
    · rw [List.mem_singleton.mp h1]
      exact hv

theorem lookupObj_no_int (os : List (Int × Value)) (i : Int) (v : Value)
    (hos : objectsNoInt os) (h : lookupObj os i = some v) : isVIntV v = false := by
  unfold lookupObj at h
  cases hf : os.find? (fun e => e.1 = i) with
  | none =>
    rw [hf] at h
    exact Option.noConfusion h
  | some e =>
    rw [hf] at h
    have h2 : some e.2 = some v := h
    injection h2 with h3
    rw [← h3]
    exact hos e (List.mem_of_find?_eq_some hf)

theorem keeps_registerObj (i : Int) (v : Value) (hv : isVIntV v = false) :
    KeepsNoInt (registerObj i v) (fun _ => True) := by
  intro s a s₁ hs h
  rw [registerObj_run] at h
  simp only [Except.ok.injEq, Prod.mk.injEq] at h
  refine ⟨trivial, ?_⟩
  rw [← h.2]
  exact objUpdate_no_int s.objects i v hs hv

theorem read_tensor_generic_keeps (dt : Dtype) (cfg : Config) (readV : M Value)
    (hV : KeepsNoInt readV (fun w => isVIntV w = false)) :
    KeepsNoInt (read_tensor_generic dt cfg readV) (fun w => isVIntV w = false) := by
  intro s v s₁ hs hrun
  simp only [read_tensor_generic] at hrun
  obtain ⟨ndim, sa, h1, hrun1⟩ := M.bind_ok_inv _ _ _ _ hrun
  obtain ⟨size, sb, h2, hrun2⟩ := M.bind_ok_inv _ _ _ _ hrun1
  obtain ⟨stride, sc, h3, hrun3⟩ := M.bind_ok_inv _ _ _ _ hrun2
  obtain ⟨off, sd, h4, hrun4⟩ := M.bind_ok_inv _ _ _ _ hrun3
  obtain ⟨storage, se, h5, hrun5⟩ := M.bind_ok_inv _ _ _ _ hrun4
  have hsd : objectsNoInt sd.objects := by
    rw [read_long_objects cfg _ _ _ h4, read_long_array_objects cfg ndim _ _ _ h3,
      read_long_array_objects cfg ndim _ _ _ h2, read_int_objects _ _ _ h1]
    exact hs
  obtain ⟨hPst, hse⟩ := hV sd storage se hsd h5
  cases storage
  case VNil =>
    obtain ⟨hv, hss⟩ := M.pure_ok_inv _ _ _ _ hrun5
    rw [hv, hss]
    exact ⟨rfl, hse⟩
  case VArr a =>
    replace hrun5 : (if ndim = 0 ∨ size = [] ∨ stride = []
        then (pure (Value.VArr (npEmpty dt)) : M Value)
        else (M.lift (npSliceFrom a (off - 1)) >>= fun sliced =>
          pure (Value.VArr (npAsStrided sliced size
            (stride.map (fun x => (a.dtype.itemsize : Int) * x)))))) se =
        .ok (v, s₁) := hrun5
    split at hrun5
    · obtain ⟨hv, hss⟩ := M.pure_ok_inv _ _ _ _ hrun5
      rw [hv, hss]
      exact ⟨rfl, hse⟩
    · obtain ⟨sliced, sf, h6, hrun6⟩ := M.bind_ok_inv _ _ _ _ hrun5
      obtain ⟨-, hsf⟩ := M.lift_ok_inv _ _ _ _ h6
      obtain ⟨hv, hss⟩ := M.pure_ok_inv _ _ _ _ hrun6
      rw [hv, hss, hsf]
      exact ⟨rfl, hse⟩
  all_goals
    (replace hrun5 : (if ndim = 0 ∨ size = [] ∨ stride = []
          then (pure (Value.VArr (npEmpty dt)) : M Value)
          else M.throw .attributeError) se = .ok (v, s₁) := hrun5
     split at hrun5
     · obtain ⟨hv, hss⟩ := M.pure_ok_inv _ _ _ _ hrun5
       rw [hv, hss]
       exact ⟨rfl, hse⟩
     · exact Except.noConfusion hrun5)

theorem read_storage_keeps (dt : Dtype) (cfg : Config) :
    KeepsNoInt (read_storage dt cfg) (fun w => isVIntV w = false) := by
  intro s v s₁ hs hrun
  simp only [read_storage] at hrun
  obtain ⟨size, sa, h1, hrun1⟩ := M.bind_ok_inv _ _ _ _ hrun
  obtain ⟨raw, sb, h2, hrun2⟩ := M.bind_ok_inv _ _ _ _ hrun1
  obtain ⟨hv, hss⟩ := M.pure_ok_inv _ _ _ _ hrun2
  rw [hv, hss]
  refine ⟨rfl, ?_⟩
  rw [fread_objects _ _ _ _ h2, read_long_objects cfg _ _ _ h1]
  exact hs

theorem runTorchReader_keeps (k : RKind) (index : Int) (className : String)
    (cfg : Config) (readV : M Value)
    (hV : KeepsNoInt readV (fun w => isVIntV w = false)) :
    KeepsNoInt (runTorchReader k index className cfg readV)
      (fun w => isVIntV w = false) := by
  cases k
  case tensor dt => exact read_tensor_generic_keeps dt cfg readV hV
  case storage dt => exact read_storage_keeps dt cfg
  case trivial =>
    intro s v s₁ hs hrun
    replace hrun : (readV >>= fun o => pure (Value.VObj index className o)) s =
        .ok (v, s₁) := hrun
    obtain ⟨o, sa, h1, hrun1⟩ := M.bind_ok_inv _ _ _ _ hrun
    obtain ⟨-, hsa⟩ := hV s o sa hs h1
    obtain ⟨hv, hss⟩ := M.pure_ok_inv _ _ _ _ hrun1
    rw [hv, hss]
    exact ⟨rfl, hsa⟩

/-- With the int heuristic off, `read_obj` never returns a bare Python int
(numbers stay floats and only non-int values are ever registered), and it
preserves the no-bare-int invariant of the reference table. -/
theorem read_obj_keeps (cfg : Config) (hcfg : cfg.use_int_heuristic = false) :
    ∀ fuel : Nat, KeepsNoInt (read_obj cfg fuel) (fun w => isVIntV w = false) := by
  intro fuel
  induction fuel with
  | zero =>
    intro s v s₁ hs hrun
    exact Except.noConfusion hrun
  | succ fuel ih =>
    intro s v s₁ hs hrun
    simp only [read_obj] at hrun
    obtain ⟨t, sa, hti, hrun1⟩ := M.bind_ok_inv _ _ _ _ hrun
    have hsa : objectsNoInt sa.objects := by
      rw [read_int_objects _ _ _ hti]
      exact hs
    by_cases h0 : t = 0
    · rw [if_pos h0] at hrun1
      obtain ⟨hv, hss⟩ := M.pure_ok_inv _ _ _ _ hrun1
      rw [hv, hss]
      exact ⟨rfl, hsa⟩
    rw [if_neg h0] at hrun1
    by_cases h1 : t = 1
    · rw [if_pos h1] at hrun1
      obtain ⟨x, sb, hx, hrun2⟩ := M.bind_ok_inv _ _ _ _ hrun1
      have hsb : objectsNoInt sb.objects := by
        rw [read_double_objects _ _ _ hx]
        exact hsa
      rw [if_neg (by rintro ⟨hc, -⟩; rw [hcfg] at hc; exact Bool.noConfusion hc)] at hrun2
      obtain ⟨hv, hss⟩ := M.pure_ok_inv _ _ _ _ hrun2
      rw [hv, hss]
      exact ⟨rfl, hsb⟩
    rw [if_neg h1] at hrun1
    by_cases h5 : t = 5
    · rw [if_pos h5] at hrun1
      obtain ⟨b, sb, hx, hrun2⟩ := M.bind_ok_inv _ _ _ _ hrun1
      obtain ⟨hv, hss⟩ := M.pure_ok_inv _ _ _ _ hrun2
      rw [hv, hss]
      refine ⟨rfl, ?_⟩
      rw [read_boolean_objects _ _ _ hx]
      exact hsa
    rw [if_neg h5] at hrun1
    by_cases h2 : t = 2
    · rw [if_pos h2] at hrun1
      obtain ⟨str, sb, hx, hrun2⟩ := M.bind_ok_inv _ _ _ _ hrun1
      obtain ⟨hv, hss⟩ := M.pure_ok_inv _ _ _ _ hrun2
      rw [hv, hss]
      refine ⟨rfl, ?_⟩
      rw [read_string_objects _ _ _ hx]
      exact hsa
    rw [if_neg h2] at hrun1
    by_cases hind : (t = 3 ∨ t = 4 ∨ t = 6 ∨ t = 8 ∨ t = 7)
    swap
    · rw [if_neg hind] at hrun1
      exact Except.noConfusion hrun1
    rw [if_pos hind] at hrun1
    obtain ⟨idx, sb, hidx, hrun2⟩ := M.bind_ok_inv _ _ _ _ hrun1
    have hsb : objectsNoInt sb.objects := by
      rw [read_int_objects _ _ _ hidx]
      exact hsa
    obtain ⟨st, sc, hget, hrun3⟩ := M.bind_ok_inv _ _ _ _ hrun2
    obtain ⟨hst, hsc⟩ := M.get_ok_inv _ _ _ hget
    rw [hst, hsc] at hrun3
    cases hlook : lookupObj sb.objects idx with
    | some w =>
      rw [hlook] at hrun3
      obtain ⟨hv, hss⟩ := M.pure_ok_inv _ _ _ _ hrun3
      rw [hv, hss]
      exact ⟨lookupObj_no_int _ _ _ hsb hlook, hsb⟩
    | none =>
      rw [hlook] at hrun3
      by_cases hfun : (t = 6 ∨ t = 8 ∨ t = 7)
      · rw [if_pos hfun] at hrun3
        obtain ⟨size, sd, hsz, hrun4⟩ := M.bind_ok_inv _ _ _ _ hrun3
        obtain ⟨dumped, se, hdm, hrun5⟩ := M.bind_ok_inv _ _ _ _ hrun4
        obtain ⟨upv, sf, hup, hrun6⟩ := M.bind_ok_inv _ _ _ _ hrun5
        have hsd : objectsNoInt sd.objects := by
          rw [read_int_objects _ _ _ hsz]
          exact hsb
        have hse : objectsNoInt se.objects := by
          rw [fread_objects _ _ _ _ hdm]
          exact hsd
        obtain ⟨-, hsf⟩ := ih se upv sf hse hup
        obtain ⟨u, sg, hreg, hrun7⟩ := M.bind_ok_inv _ _ _ _ hrun6
        obtain ⟨-, hsg⟩ := keeps_registerObj idx (Value.VFunc size dumped upv) rfl sf u sg hsf hreg
        obtain ⟨hv, hss⟩ := M.pure_ok_inv _ _ _ _ hrun7
        rw [hv, hss]
        exact ⟨rfl, hsg⟩
      rw [if_neg hfun] at hrun3
      by_cases h4 : t = 4
      · rw [if_pos h4] at hrun3
        obtain ⟨version, sd, hvs, hrun4⟩ := M.bind_ok_inv _ _ _ _ hrun3
        have hsd : objectsNoInt sd.objects := by
          rw [read_string_objects _ _ _ hvs]
          exact hsb
        by_cases hsw : pyStartsWith version ("V ") = true
        · rw [if_pos hsw] at hrun4
          obtain ⟨u0, sx, hlx, hrun4a⟩ := M.bind_ok_inv _ _ _ _ hrun4
          obtain ⟨-, hsx⟩ := M.lift_ok_inv _ _ _ _ hlx
          obtain ⟨className, se, hrs, hrun5⟩ := M.bind_ok_inv _ _ _ _ hrun4a
          have hse : objectsNoInt se.objects := by
            rw [read_string_objects _ _ _ hrs, hsx]
            exact hsd
          cases hlr : lookupReader className with
          | none =>
            rw [hlr] at hrun5
            by_cases hforce : cfg.force_deserialize_classes = true
            · rw [if_neg (not_not_intro hforce)] at hrun5
              obtain ⟨o, sf, ho, hrun6⟩ := M.bind_ok_inv _ _ _ _ hrun5
              obtain ⟨-, hsf⟩ := ih se o sf hse ho
              obtain ⟨u, sg, hreg, hrun7⟩ := M.bind_ok_inv _ _ _ _ hrun6
              obtain ⟨-, hsg⟩ := keeps_registerObj idx (Value.VObj idx className o) rfl sf u sg hsf hreg
              obtain ⟨hv, hss⟩ := M.pure_ok_inv _ _ _ _ hrun7
              rw [hv, hss]
              exact ⟨rfl, hsg⟩
            · rw [if_pos hforce] at hrun5
              exact Except.noConfusion hrun5
          | some k =>
            rw [hlr] at hrun5
            obtain ⟨obj, sf, hrtr, hrun6⟩ := M.bind_ok_inv _ _ _ _ hrun5
            obtain ⟨hPo, hsf⟩ :=
              runTorchReader_keeps k idx className cfg (read_obj cfg fuel) ih se obj sf hse hrtr
            obtain ⟨u, sg, hreg, hrun7⟩ := M.bind_ok_inv _ _ _ _ hrun6
            obtain ⟨-, hsg⟩ := keeps_registerObj idx obj hPo sf u sg hsf hreg
            obtain ⟨hv, hss⟩ := M.pure_ok_inv _ _ _ _ hrun7
            rw [hv, hss]
            exact ⟨hPo, hsg⟩
        · rw [if_neg hsw] at hrun4
          obtain ⟨className, se, hpv, hrun5⟩ := M.bind_ok_inv _ _ _ _ hrun4
          obtain ⟨-, hsep⟩ := M.pure_ok_inv _ _ _ _ hpv
          have hse : objectsNoInt se.objects := by
            rw [hsep]
            exact hsd
          cases hlr : lookupReader className with
          | none =>
            rw [hlr] at hrun5
            by_cases hforce : cfg.force_deserialize_classes = true
            · rw [if_neg (not_not_intro hforce)] at hrun5
              obtain ⟨o, sf, ho, hrun6⟩ := M.bind_ok_inv _ _ _ _ hrun5
              obtain ⟨-, hsf⟩ := ih se o sf hse ho
              obtain ⟨u, sg, hreg, hrun7⟩ := M.bind_ok_inv _ _ _ _ hrun6
              obtain ⟨-, hsg⟩ := keeps_registerObj idx (Value.VObj idx className o) rfl sf u sg hsf hreg
              obtain ⟨hv, hss⟩ := M.pure_ok_inv _ _ _ _ hrun7
              rw [hv, hss]
              exact ⟨rfl, hsg⟩
            · rw [if_pos hforce] at hrun5
              exact Except.noConfusion hrun5
          | some k =>
            rw [hlr] at hrun5
            obtain ⟨obj, sf, hrtr, hrun6⟩ := M.bind_ok_inv _ _ _ _ hrun5
            obtain ⟨hPo, hsf⟩ :=
              runTorchReader_keeps k idx className cfg (read_obj cfg fuel) ih se obj sf hse hrtr
            obtain ⟨u, sg, hreg, hrun7⟩ := M.bind_ok_inv _ _ _ _ hrun6
            obtain ⟨-, hsg⟩ := keeps_registerObj idx obj hPo sf u sg hsf hreg
            obtain ⟨hv, hss⟩ := M.pure_ok_inv _ _ _ _ hrun7
            rw [hv, hss]
            exact ⟨hPo, hsg⟩
      · rw [if_neg h4] at hrun3
        obtain ⟨size, sd, hsz, hrun4⟩ := M.bind_ok_inv _ _ _ _ hrun3
        have hsd : objectsNoInt sd.objects := by
          rw [read_int_objects _ _ _ hsz]
          exact hsb
        obtain ⟨r, se, hp, hrun5⟩ := M.bind_ok_inv _ _ _ _ hrun4
        obtain ⟨es, ksum, knat⟩ := r
        obtain ⟨hse, -⟩ := readPairsAux_spec cfg (read_obj cfg fuel)
          (fun q => objectsNoInt q.objects) (fun w => isVIntV w = false)
          ih size.toNat [] 0 true sd es ksum knat se hsd hp
        simp only at hrun5
        by_cases hl : cfg.use_list_heuristic = true
        · rw [if_pos hl] at hrun5
          by_cases htest : (knat = true ∧
              ((es.length : Int)) * ((es.length : Int) + 1) = 2 * ksum)
          · rw [if_pos htest] at hrun5
            obtain ⟨lst, sf, hlift, hrun6⟩ := M.bind_ok_inv _ _ _ _ hrun5
            obtain ⟨-, hsf⟩ := M.lift_ok_inv _ _ _ _ hlift
            obtain ⟨obj, sg, hobj, hrun7⟩ := M.bind_ok_inv _ _ _ _ hrun6
            obtain ⟨hoe, hsg⟩ := M.pure_ok_inv _ _ _ _ hobj
            obtain ⟨u, sh, hreg, hrun8⟩ := M.bind_ok_inv _ _ _ _ hrun7
            obtain ⟨-, hsh⟩ := keeps_registerObj idx obj (by rw [hoe]; rfl) sg u sh
              (by rw [hsg, hsf]; exact hse) hreg
            obtain ⟨hv, hss⟩ := M.pure_ok_inv _ _ _ _ hrun8
            rw [hv, hss, hoe]
            exact ⟨rfl, hsh⟩
          · rw [if_neg htest] at hrun5
            obtain ⟨obj, sg, hobj, hrun7⟩ := M.bind_ok_inv _ _ _ _ hrun5
            obtain ⟨hoe, hsg⟩ := M.pure_ok_inv _ _ _ _ hobj
            obtain ⟨u, sh, hreg, hrun8⟩ := M.bind_ok_inv _ _ _ _ hrun7
            obtain ⟨-, hsh⟩ := keeps_registerObj idx obj (by rw [hoe]; rfl) sg u sh
              (by rw [hsg]; exact hse) hreg
            obtain ⟨hv, hss⟩ := M.pure_ok_inv _ _ _ _ hrun8
            rw [hv, hss, hoe]
            exact ⟨rfl, hsh⟩
        · rw [if_neg hl] at hrun5
          obtain ⟨obj, sg, hobj, hrun7⟩ := M.bind_ok_inv _ _ _ _ hrun5
          obtain ⟨hoe, hsg⟩ := M.pure_ok_inv _ _ _ _ hobj
          obtain ⟨u, sh, hreg, hrun8⟩ := M.bind_ok_inv _ _ _ _ hrun7
          obtain ⟨-, hsh⟩ := keeps_registerObj idx obj (by rw [hoe]; rfl) sg u sh
            (by rw [hsg]; exact hse) hreg
          obtain ⟨hv, hss⟩ := M.pure_ok_inv _ _ _ _ hrun8
          rw [hv, hss, hoe]
          exact ⟨rfl, hsh⟩

theorem natKey_no_int (k : Value) (h1 : isVIntV k = false) (h2 : natKey k = true) :
    k = Value.VBool true := by
  cases k
  case VInt n => exact absurd h1 (by simp [isVIntV])
  case VBool b =>
    cases b
    · exact absurd h2 (by simp [natKey, pyIsInt, pyIntVal])
    · rfl
  all_goals exact absurd h2 (by simp [natKey, pyIsInt])

set_option maxRecDepth 40000 in
theorem insertEntry_bool_true (es : List (Value × Value)) (v : Value)
    (hes : ∀ e ∈ es, e.1 = Value.VBool true) (hlen : es.length ≤ 1) :
    (∀ e ∈ insertEntry es (Value.VBool true) v, e.1 = Value.VBool true) ∧
    (insertEntry es (Value.VBool true) v).length ≤ 1 := by
  match es with
  | [] =>
    refine ⟨?_, by simp [insertEntry]⟩
    intro e he
    simp only [insertEntry, List.mem_singleton] at he
    rw [he]
  | (k₀, v₀) :: [] =>
    have h₀ : k₀ = Value.VBool true := hes (k₀, v₀) (List.mem_cons_self _ _)
    subst h₀
    simp only [insertEntry]
    rw [if_pos (by rfl : pyEq (Value.VBool true) (Value.VBool true) = true)]
    refine ⟨?_, by simp⟩
    intro e he
    simp only [List.mem_singleton] at he
    rw [he]
  | e₀ :: e₁ :: rest =>
    exfalso
    simp at hlen

theorem insertAll_bool_true :
    ∀ (kvs : List (Value × Value)), (∀ kv ∈ kvs, kv.1 = Value.VBool true) →
    ∀ es₀, (∀ e ∈ es₀, e.1 = Value.VBool true) → es₀.length ≤ 1 →
    (insertAll es₀ kvs).length ≤ 1 := by
  intro kvs
  induction kvs with
  | nil =>
    intro _ es₀ _ hlen
    exact hlen
  | cons kv rest ih =>
    intro hall es₀ hes hlen
    have hk : kv.1 = Value.VBool true := hall kv (List.mem_cons_self _ _)
    have hstep : insertAll es₀ (kv :: rest) = insertAll (insertEntry es₀ kv.1 kv.2) rest := rfl
    rw [hstep, hk]
    obtain ⟨h1, h2⟩ := insertEntry_bool_true es₀ kv.2 hes hlen
    exact ih (fun e he => hall e (List.mem_cons_of_mem _ he)) _ h1 h2

/-- Claim C10, amended: with the int heuristic off, numbers deserialize to
floats, so a numeric key never passes the `isinstance(k, int) and k > 0`
test; but Python booleans do pass it (`True` counts as the int 1), so the
list heuristic still converts some non-empty tables — exactly those whose
every key is the boolean `True`, which collapse in the dict to at most one
entry.  Hence any table converted to a list under
`use_int_heuristic = False` has at most one element (not necessarily zero,
as the claim asserts). -/
theorem c10_int_heuristic_off (cfg : Config) (fuel : Nat) (s : RState)
    (idx size : Int) (v : Value) (sf : RState) (rest : List Nat) (lst : List Value)
    (hi : cfg.use_int_heuristic = false)
    (hos : objectsNoInt s.objects)
    (hr : intRange idx) (hrs : intRange size)
    (h : s.data.drop s.pos = encInt 3 ++ (encInt idx ++ (encInt size ++ rest)))
    (hnone : lookupObj s.objects idx = none)
    (hrun : read_obj cfg (fuel + 1) s = .ok (v, sf))
    (hv : v = Value.VList lst) :
    lst.length ≤ 1 := by
  obtain ⟨es, ksum, knat, s₁, hpairs, hcase⟩ :=
    read_obj_table_run cfg fuel s idx size v sf rest hr hrs h hnone hrun
  rcases hcase with ⟨hl, hknat2, -, lst2, hbl, hveq⟩ | ⟨-, hveq⟩
  swap
  · rw [hveq] at hv
    exact absurd hv (fun hc => Value.noConfusion hc)
  rw [hveq] at hv
  injection hv with hinj
  obtain ⟨hse, kvs, hklen, hes, hP, hsums, -⟩ := readPairsAux_spec cfg (read_obj cfg fuel)
    (fun q => objectsNoInt q.objects) (fun w => isVIntV w = false)
    (read_obj_keeps cfg hi fuel) size.toNat [] 0 true
    { s with pos := s.pos + 4 + 4 + 4 } es ksum knat s₁ hos hpairs
  obtain ⟨-, hknat⟩ := hsums hl
  rw [Bool.true_and] at hknat
  have hallb : kvs.all (fun kv => natKey kv.1) = true := by rw [← hknat, hknat2]
  have hall : ∀ kv ∈ kvs, kv.1 = Value.VBool true := by
    intro kv hkv
    have h2 : natKey kv.1 = true := by
      simp only [List.all_eq_true] at hallb
      exact hallb kv hkv
    exact natKey_no_int kv.1 (hP kv hkv).1 h2
  have heslen : es.length ≤ 1 := by
    rw [hes]
    exact insertAll_bool_true kvs hall []
      (by intro e he; exact absurd he (List.not_mem_nil e)) (by simp)
  have hl2 : lst2.length = es.length := buildList_length es es.length lst2 hbl
  rw [← hinj, hl2]
  exact heslen

set_option maxRecDepth 40000 in
theorem c10_witness :
    read_obj { use_int_heuristic := false } 2
      { data := encInt 3 ++ (encInt 1 ++ (encInt 1 ++ (encInt 5 ++ (encInt 1 ++ encInt 0)))),
        pos := 0, objects := [] } =
      .ok (Value.VList [Value.VNil],
        { data := encInt 3 ++ (encInt 1 ++ (encInt 1 ++ (encInt 5 ++ (encInt 1 ++ encInt 0)))),
          pos := 24, objects := [(1, Value.VList [Value.VNil])] }) ∧
    [Value.VNil].length ≤ 1 :=
  ⟨rfl,
    c10_int_heuristic_off { use_int_heuristic := false } 1
      { data := encInt 3 ++ (encInt 1 ++ (encInt 1 ++ (encInt 5 ++ (encInt 1 ++ encInt 0)))),
        pos := 0, objects := [] }
      1 1 (Value.VList [Value.VNil])
      { data := encInt 3 ++ (encInt 1 ++ (encInt 1 ++ (encInt 5 ++ (encInt 1 ++ encInt 0)))),
        pos := 24, objects := [(1, Value.VList [Value.VNil])] }
      (encInt 5 ++ (encInt 1 ++ encInt 0)) [Value.VNil]
      rfl (by intro e he; exact absurd he (List.not_mem_nil e))
      ⟨by decide, by decide⟩ ⟨by decide, by decide⟩ rfl rfl (by rfl) rfl⟩

set_option maxRecDepth 40000 in
/-- Claim C10, counterexample to the claim as stated: with
`use_int_heuristic = False` (and the list heuristic at its default True), the
NON-empty table at index 1 with the single pair `(true, nil)` still converts
to the one-element list `[nil]`: the boolean key `True` passes
`isinstance(k, int) and k > 0`, so `keys_natural` holds and
`1*2 == 2*key_sum` — the claim says only empty tables convert. -/
theorem c10_counterexample :
    read_obj { use_int_heuristic := false } 2
      { data := encInt 3 ++ (encInt 1 ++ (encInt 1 ++ (encInt 5 ++ (encInt 1 ++ encInt 0)))),
        pos := 0, objects := [] } =
      .ok (Value.VList [Value.VNil],
        { data := encInt 3 ++ (encInt 1 ++ (encInt 1 ++ (encInt 5 ++ (encInt 1 ++ encInt 0)))),
          pos := 24, objects := [(1, Value.VList [Value.VNil])] }) ∧
    [Value.VNil].length = 1 ∧ ¬ Value.VList [Value.VNil] = Value.VList [] :=
  ⟨rfl, rfl, by intro hc; injection hc with h2; exact List.noConfusion h2⟩
